import Mathlib

/-! # Ghost exchange pattern generator, rank groups and the manual MVM compute array

A shallow embedding of three pieces of the repository, followed by the properties
established about them:
* sst/elements/patterns/ghost_pattern.h: the constructor of `Ghost_pattern` (parameter
  parsing, link and helper set-up, neighbour computation, the self-directed START
  event), its checkpoint functions (`serialize`, `save_construct_data`,
  `load_construct_data`) and, from the specification, its event handler;
* sst/elements/firefly/group.h: the class `DenseGroup`;
* sst/elements/golem/manualMVMComputeArray.h: the function `compute`.

Conventions of the embedding:
* a C `int` is an `Int`; every arithmetic operation reduces its result to the
  32-bit two's-complement range (`wrap32`); `/` and `%` truncate towards zero;
  `int64_t` arithmetic reduces to 64 bits (`wrap64`);
* a C `double` is the rational number it denotes; the code only stores, copies
  and sign-tests doubles, it never computes with them;
* what the constructor obtains from the simulator core and the C library (the
  network link, the time converter, the `%lf` conversion, the content of members
  that have no default) is collected in an `Env` record;
* a result `none` of a function on vectors or maps stands for an access outside the
  container or an overflowing loop counter.
-/

/-! ## C integer arithmetic -/

/-- Smallest value of a 32-bit `int`. -/
def INT_MIN : Int := -2147483648

/-- Largest value of a 32-bit `int`. -/
def INT_MAX : Int := 2147483647

/-- Two's-complement reduction of an integer into the range of a 32-bit `int`. -/
def wrap32 (z : Int) : Int := (z + 2147483648) % 4294967296 - 2147483648

/-- C `a + b` on `int`. -/
def c_add (a b : Int) : Int := wrap32 (a + b)

/-- C `a - b` on `int`. -/
def c_sub (a b : Int) : Int := wrap32 (a - b)

/-- C `a * b` on `int`. -/
def c_mul (a b : Int) : Int := wrap32 (a * b)

/-- C `a / b` on `int` for `b ≠ 0`: the quotient truncated towards zero. -/
def c_div (a b : Int) : Int := wrap32 (Int.tdiv a b)

/-- C `a % b` on `int` for `b ≠ 0`: the remainder of the truncating division. -/
def c_mod (a b : Int) : Int := Int.tmod a b

/-! ## The neighbour computation of the constructor (ghost_pattern.h, lines 112-118) -/

namespace Neighbors

/-- Line 113: `int myX= my_rank % x_dim;`. -/
def myX (my_rank x_dim : Int) : Int := c_mod my_rank x_dim

/-- Line 114: `int myY= my_rank / y_dim;`. -/
def myY (my_rank y_dim : Int) : Int := c_div my_rank y_dim

/-- Line 115: `right= ((myX + 1) % x_dim) + (myY * y_dim);`. -/
def right (my_rank x_dim y_dim : Int) : Int :=
  c_add (c_mod (c_add (myX my_rank x_dim) 1) x_dim) (c_mul (myY my_rank y_dim) y_dim)

/-- Line 116: `left= ((myX - 1 + x_dim) % x_dim) + (myY * y_dim);`. -/
def left (my_rank x_dim y_dim : Int) : Int :=
  c_add (c_mod (c_add (c_sub (myX my_rank x_dim) 1) x_dim) x_dim)
    (c_mul (myY my_rank y_dim) y_dim)

/-- Line 117: `down= myX + ((myY + 1) % y_dim) * y_dim;`. -/
def down (my_rank x_dim y_dim : Int) : Int :=
  c_add (myX my_rank x_dim) (c_mul (c_mod (c_add (myY my_rank y_dim) 1) y_dim) y_dim)

/-- Line 118: `up= myX + ((myY - 1 + y_dim) % y_dim) * y_dim;`. -/
def up (my_rank x_dim y_dim : Int) : Int :=
  c_add (myX my_rank x_dim)
    (c_mul (c_mod (c_add (c_sub (myY my_rank y_dim) 1) y_dim) y_dim) y_dim)

end Neighbors

/-! ## The reference torus of the specification -/

namespace TorusSpec

/-- Column of a rank: `x = id % x_dim`. -/
def x (id x_dim : Int) : Int := id % x_dim

/-- Row of a rank: `y = id / x_dim`. -/
def y (id x_dim : Int) : Int := id / x_dim

/-- Row-major rank of the position `(x, y)`: `rank = y * x_dim + x`. -/
def rank (x y x_dim : Int) : Int := y * x_dim + x

/-- Rank at `((x + 1) mod x_dim, y)`. -/
def right (id x_dim _y_dim : Int) : Int :=
  rank ((x id x_dim + 1) % x_dim) (y id x_dim) x_dim

/-- Rank at `((x - 1) mod x_dim, y)`. -/
def left (id x_dim _y_dim : Int) : Int :=
  rank ((x id x_dim - 1) % x_dim) (y id x_dim) x_dim

/-- Rank at `(x, (y + 1) mod y_dim)`. -/
def down (id x_dim y_dim : Int) : Int :=
  rank (x id x_dim) ((y id x_dim + 1) % y_dim) x_dim

/-- Rank at `(x, (y - 1) mod y_dim)`. -/
def up (id x_dim y_dim : Int) : Int :=
  rank (x id x_dim) ((y id x_dim - 1) % y_dim) x_dim

end TorusSpec

/-! ## The C library conversion `%d` -/

/-- The white-space characters that `sscanf` skips before a conversion. -/
def c_isspace (c : Char) : Bool :=
  c.toNat = 32 || (9 ≤ c.toNat && c.toNat ≤ 13)

/-- The decimal digits. -/
def c_isdigit (c : Char) : Bool :=
  48 ≤ c.toNat && c.toNat ≤ 57

/-- Value of a run of decimal digits, most significant digit first. -/
def digits_value (ds : List Char) : Nat :=
  ds.foldl (fun acc c => 10 * acc + (c.toNat - 48)) 0

/-- The sign and the digit run of `%d` once leading white space is gone. -/
def scan_sign : List Char → Bool × List Char
  | '-' :: rest => (true, rest)
  | '+' :: rest => (false, rest)
  | cs => (false, cs)

/-- Conversion `sscanf(s, "%d", &v)`: leading white space is skipped, an optional sign
and the longest run of digits are read. `none` is a matching failure (no digit), in
which case `v` keeps its content. A value outside the `int` range is stored reduced
to 32 bits. -/
def sscanf_d (s : String) : Option Int :=
  let body := scan_sign (s.toList.dropWhile c_isspace)
  let ds := body.2.takeWhile c_isdigit
  if ds.isEmpty then none
  else if body.1 then some (wrap32 (-(digits_value ds : Int)))
  else some (wrap32 (digits_value ds : Int))

/-- The decimal numeral of a natural number: its digits, most significant first, without
leading zeros. -/
def decimal_nat (n : Nat) : List Char :=
  if n = 0 then ['0'] else (Nat.digits 10 n).reverse.map (fun d => Char.ofNat (d + 48))

/-- The decimal numeral of an integer: a minus sign when it is negative, then the
numeral of its absolute value. -/
def decimal (v : Int) : String :=
  String.mk (if v < 0 then '-' :: decimal_nat v.natAbs else decimal_nat v.natAbs)

/-! ## Data model -/

/-- The enum `state_t` of ghost_pattern.h, line 33. -/
inductive state_t where
  | INIT
  | COMPUTE
  | WAIT
  | DONE
  deriving DecidableEq, Repr

/-- The type `Params_t`: a `std::map<std::string, std::string>`, given by its entries in
iteration order. -/
abbrev Params_t := List (String × String)

/-- The type `ComponentId_t` of the simulator core. -/
abbrev ComponentId_t := Nat

/-- A `Link *` that is not NULL, as a handle. -/
abbrev Link := Nat

/-- A `TimeConverter *`, as a handle. -/
abbrev TimeConverter := Nat

/-- Modelled from the spec: the event types of pattern_common.h, which is not among the
sources; the specification names the logical message types START and EXCHANGE. -/
inductive pattern_event_t where
  | START
  | EXCHANGE
  deriving DecidableEq, Repr

/-- An event handed to `Patterns::event_send`: destination rank, event type and delay. -/
structure SentEvent where
  dest : Int
  event : pattern_event_t
  delay : ℚ
  deriving DecidableEq

/-- What the constructor receives from outside the class. -/
structure Env where
  /-- Result of `configureLink("NETWORK", handler)`; `none` is NULL. -/
  configureLink : Option Link
  /-- Result of `registerTimeBase("1ns", true)`. -/
  registerTimeBase : TimeConverter
  /-- The C library conversion `sscanf(s, "%lf", &v)`; `none` is a matching failure. -/
  sscanf_lf : String → Option ℚ
  /-- Content of `my_rank` before the constructor runs (the member has no default). -/
  uninit_my_rank : Int
  /-- Content of `x_dim` before the constructor runs (the member has no default). -/
  uninit_x_dim : Int
  /-- Content of `y_dim` before the constructor runs (the member has no default). -/
  uninit_y_dim : Int

/-- How a construction or a restore can end without a component. -/
inductive Failure where
  /-- The macro `_ABORT(Ghost_pattern, msg)`. -/
  | abort (msg : String)
  /-- An integer division or remainder with divisor zero. -/
  | zero_divisor
  /-- The archive ended early or held a value of another type. -/
  | archive_exception
  deriving DecidableEq, Repr

/-- Modelled from the spec: the class `Patterns` of pattern_common.h, which is not among
the sources. The object keeps the arguments `init` accepted. -/
structure Patterns where
  x_dim : Int
  y_dim : Int
  my_rank : Int
  net : Link
  latency : ℚ
  bandwidth : ℚ
  deriving DecidableEq

/-- Modelled from the spec: `Patterns::init` of pattern_common.h, which is not among the
sources. Section 4.1: "Fails with ConfigurationError if x_dim <= 0, y_dim <= 0, or rank
is outside [0, x_dim*y_dim)"; section 4.3: "Invalid inputs (latency < 0, bandwidth <= 0)
are rejected at configuration time". `none` is the return value FALSE. -/
def Patterns.init (x y rank : Int) (net_link : Link) (lat bw : ℚ) : Option Patterns :=
  if x ≤ 0 ∨ y ≤ 0 ∨ rank < 0 ∨ x * y ≤ rank ∨ lat < 0 ∨ bw ≤ 0 then none
  else some ⟨x, y, rank, net_link, lat, bw⟩

/-- Modelled from the spec: `Patterns::event_send(dest, event)` of pattern_common.h, which
is not among the sources, called without a delay argument. Section 3: "a zero-delay
self-START event is enqueued at construction". -/
def Patterns.event_send (_common : Patterns) (dest : Int) (event : pattern_event_t) :
    SentEvent :=
  ⟨dest, event, 0⟩

/-- The data members of `Ghost_pattern` (lines 128-144), with the id of its `Component`
base. -/
structure Ghost_pattern where
  id : ComponentId_t
  common : Patterns
  my_rank : Int
  x_dim : Int
  y_dim : Int
  latency : ℚ
  bandwidth : ℚ
  compute_time : ℚ
  exchange_msg_len : Int
  state : state_t
  left : Int
  right : Int
  up : Int
  down : Int
  rcv_cnt : Int
  ghost_pattern_debug : Int
  params : Params_t
  net : Link
  tc : TimeConverter
  deriving DecidableEq

/-! ## The constructor (lines 37-122) -/

/-- The members the parameter loop can assign. -/
structure Parsed where
  ghost_pattern_debug : Int
  my_rank : Int
  x_dim : Int
  y_dim : Int
  latency : ℚ
  bandwidth : ℚ
  compute_time : ℚ
  exchange_msg_len : Int
  deriving DecidableEq

/-- Lines 43-48: the defaults; `my_rank`, `x_dim` and `y_dim` get none. -/
def Parsed.defaults (env : Env) : Parsed :=
  { ghost_pattern_debug := 0
    my_rank := env.uninit_my_rank
    x_dim := env.uninit_x_dim
    y_dim := env.uninit_y_dim
    latency := -1
    bandwidth := -1
    compute_time := -1
    exchange_msg_len := 128 }

/-- Lines 55-57: the key debug. A failed conversion leaves the member as it was. -/
def Parsed.on_debug (kv : String × String) (p : Parsed) : Parsed :=
  if kv.1 = "debug" then
    { p with ghost_pattern_debug := (sscanf_d kv.2).getD p.ghost_pattern_debug }
  else p

/-- Lines 59-61: the key rank. -/
def Parsed.on_rank (kv : String × String) (p : Parsed) : Parsed :=
  if kv.1 = "rank" then { p with my_rank := (sscanf_d kv.2).getD p.my_rank } else p

/-- Lines 63-65: the key x_dim. -/
def Parsed.on_x_dim (kv : String × String) (p : Parsed) : Parsed :=
  if kv.1 = "x_dim" then { p with x_dim := (sscanf_d kv.2).getD p.x_dim } else p

/-- Lines 67-69: the key y_dim. -/
def Parsed.on_y_dim (kv : String × String) (p : Parsed) : Parsed :=
  if kv.1 = "y_dim" then { p with y_dim := (sscanf_d kv.2).getD p.y_dim } else p

/-- Lines 71-73: the key latency. -/
def Parsed.on_latency (env : Env) (kv : String × String) (p : Parsed) : Parsed :=
  if kv.1 = "latency" then { p with latency := (env.sscanf_lf kv.2).getD p.latency } else p

/-- Lines 75-77: the key bandwidth. -/
def Parsed.on_bandwidth (env : Env) (kv : String × String) (p : Parsed) : Parsed :=
  if kv.1 = "bandwidth" then
    { p with bandwidth := (env.sscanf_lf kv.2).getD p.bandwidth }
  else p

/-- Lines 79-81: the key compute_time. -/
def Parsed.on_compute_time (env : Env) (kv : String × String) (p : Parsed) : Parsed :=
  if kv.1 = "compute_time" then
    { p with compute_time := (env.sscanf_lf kv.2).getD p.compute_time }
  else p

/-- Lines 83-85: the key exchange_msg_len. -/
def Parsed.on_exchange_msg_len (kv : String × String) (p : Parsed) : Parsed :=
  if kv.1 = "exchange_msg_len" then
    { p with exchange_msg_len := (sscanf_d kv.2).getD p.exchange_msg_len }
  else p

/-- Lines 55-85: the body of the parameter loop for one entry `(key, value)`: the eight
`if` statements in their order. -/
def Parsed.entry (env : Env) (p : Parsed) (kv : String × String) : Parsed :=
  Parsed.on_exchange_msg_len kv (Parsed.on_compute_time env kv (Parsed.on_bandwidth env kv
    (Parsed.on_latency env kv (Parsed.on_y_dim kv (Parsed.on_x_dim kv (Parsed.on_rank kv
      (Parsed.on_debug kv p)))))))

/-- Lines 42-88: the defaults followed by the loop over all entries. -/
def Parsed.parse (env : Env) (params : Params_t) : Parsed :=
  params.foldl (Parsed.entry env) (Parsed.defaults env)

/-- The constructor `Ghost_pattern::Ghost_pattern(id, params)` (the name `construct`
avoids a clash with the structure). It yields the component
and the events it sent, or the way it ended without a component. The diagnostic output
of `_GHOST_PATTERN_DBG` is not part of the model. -/
def Ghost_pattern.construct (env : Env) (id : ComponentId_t) (params : Params_t) :
    Except Failure (Ghost_pattern × List SentEvent) :=
  let p := Parsed.parse env params
  match env.configureLink with
  | none => .error (.abort "Check the input XML file!")
  | some net =>
    let tc := env.registerTimeBase
    match Patterns.init p.x_dim p.y_dim p.my_rank net p.latency p.bandwidth with
    | none => .error (.abort "Patterns->init() failed!")
    | some common =>
      if p.x_dim = 0 ∨ p.y_dim = 0 then .error .zero_divisor
      else
        .ok ({ id := id
               common := common
               my_rank := p.my_rank
               x_dim := p.x_dim
               y_dim := p.y_dim
               latency := p.latency
               bandwidth := p.bandwidth
               compute_time := p.compute_time
               exchange_msg_len := p.exchange_msg_len
               state := state_t.INIT
               left := Neighbors.left p.my_rank p.x_dim p.y_dim
               right := Neighbors.right p.my_rank p.x_dim p.y_dim
               up := Neighbors.up p.my_rank p.x_dim p.y_dim
               down := Neighbors.down p.my_rank p.x_dim p.y_dim
               rcv_cnt := 0
               ghost_pattern_debug := p.ghost_pattern_debug
               params := params
               net := net
               tc := tc },
             [common.event_send p.my_rank pattern_event_t.START])

/-- An environment for evaluating the model: link 7 is configured, the time converter is
handle 1, `%lf` reads optionally signed integer numerals, and the members without default
hold 0. -/
def Env.sample : Env :=
  { configureLink := some 7
    registerTimeBase := 1
    sscanf_lf := fun s => (sscanf_d s).map (fun v => (v : ℚ))
    uninit_my_rank := 0
    uninit_x_dim := 0
    uninit_y_dim := 0 }

/-- A parameter map of a 4 x 4 torus for rank 5. -/
def Params_t.sample : Params_t :=
  [("bandwidth", "1000"), ("compute_time", "10"), ("latency", "50"), ("rank", "5"),
   ("x_dim", "4"), ("y_dim", "4")]

/-! ## Checkpointing (lines 146-193) -/

/-- A value in an archive. -/
inductive Item where
  | id (v : ComponentId_t)
  | params (p : Params_t)
  | base (id : ComponentId_t)
  | int (v : Int)
  | double (v : ℚ)
  | state (s : state_t)
  | link (l : Link)
  | tc (t : TimeConverter)
  deriving DecidableEq

/-- An archive holding one `Ghost_pattern`: the class version recorded with the object,
which the archive library hands to the functions below as `version` and `file_version`,
and the name-value pairs in the order they were written. -/
structure Archive where
  version : Nat
  items : List (String × Item)
  deriving DecidableEq

/-- The function `serialize` (lines 147-168) with a saving archive: each `ar & member`
appends the member. -/
def Ghost_pattern.serialize_save (t : Ghost_pattern) (_version : Nat) :
    List (String × Item) :=
  [("Component", .base t.id),
   ("params", .params t.params),
   ("my_rank", .int t.my_rank),
   ("x_dim", .int t.x_dim),
   ("y_dim", .int t.y_dim),
   ("latency", .double t.latency),
   ("bandwidth", .double t.bandwidth),
   ("compute_time", .double t.compute_time),
   ("exchange_msg_len", .int t.exchange_msg_len),
   ("state", .state t.state),
   ("left", .int t.left),
   ("right", .int t.right),
   ("up", .int t.up),
   ("down", .int t.down),
   ("rcv_cnt", .int t.rcv_cnt),
   ("ghost_pattern_debug", .int t.ghost_pattern_debug),
   ("net", .link t.net),
   ("tc", .tc t.tc)]

/-- The function `serialize` (lines 147-168) with a loading archive: each `ar & member`
reads the next value into the member; `common` is not touched. `none` when the archive
ends early or holds a value of another type. -/
def Ghost_pattern.serialize_load (t : Ghost_pattern) (ar : List (String × Item))
    (_version : Nat) : Option (Ghost_pattern × List (String × Item)) :=
  match ar with
  | (_, .base id) :: (_, .params params) :: (_, .int my_rank) :: (_, .int x_dim) ::
    (_, .int y_dim) :: (_, .double latency) :: (_, .double bandwidth) ::
    (_, .double compute_time) :: (_, .int exchange_msg_len) :: (_, .state state) ::
    (_, .int left) :: (_, .int right) :: (_, .int up) :: (_, .int down) ::
    (_, .int rcv_cnt) :: (_, .int ghost_pattern_debug) :: (_, .link net) ::
    (_, .tc tc) :: rest =>
      some ({ id := id
              common := t.common
              my_rank := my_rank
              x_dim := x_dim
              y_dim := y_dim
              latency := latency
              bandwidth := bandwidth
              compute_time := compute_time
              exchange_msg_len := exchange_msg_len
              state := state
              left := left
              right := right
              up := up
              down := down
              rcv_cnt := rcv_cnt
              ghost_pattern_debug := ghost_pattern_debug
              params := params
              net := net
              tc := tc }, rest)
  | _ => none

/-- The function `save_construct_data` (lines 170-180). -/
def save_construct_data (t : Ghost_pattern) (_file_version : Nat) : List (String × Item) :=
  [("id", .id t.id), ("params", .params t.params)]

/-- The function `load_construct_data` (lines 182-193): reads `id` and `params` and runs
the constructor on them. Yields the new component, the events the constructor sent and
the unread rest of the archive. -/
def load_construct_data (env : Env) (ar : List (String × Item)) (_file_version : Nat) :
    Except Failure ((Ghost_pattern × List SentEvent) × List (String × Item)) :=
  match ar with
  | (_, .id id) :: (_, .params params) :: rest =>
    match Ghost_pattern.construct env id params with
    | .error e => .error e
    | .ok r => .ok (r, rest)
  | _ => .error .archive_exception

/-- Saving a component through a pointer, as the archive library drives it: the
construction data, then the members. `class_version` is the version of the running
code. -/
def snapshot (class_version : Nat) (t : Ghost_pattern) : Archive :=
  { version := class_version
    items := save_construct_data t class_version ++ t.serialize_save class_version }

/-- Loading a component through a pointer, as the archive library drives it:
`load_construct_data`, then `serialize` on the new object, both with the version
recorded in the archive. Yields the component and the events sent on the way. -/
def restore (env : Env) (blob : Archive) : Except Failure (Ghost_pattern × List SentEvent) :=
  match load_construct_data env blob.items blob.version with
  | .error e => .error e
  | .ok (r, rest) =>
    match r.1.serialize_load rest blob.version with
    | none => .error .archive_exception
    | some (t, _) => .ok (t, r.2)

/-- A component of the 4 x 4 torus built from `Params_t.sample` with id 3, met in the
middle of a round: state WAIT with two messages received. -/
def Ghost_pattern.sample : Ghost_pattern :=
  { id := 3
    common := ⟨4, 4, 5, 7, 50, 1000⟩
    my_rank := 5
    x_dim := 4
    y_dim := 4
    latency := 50
    bandwidth := 1000
    compute_time := 10
    exchange_msg_len := 128
    state := state_t.WAIT
    left := 4
    right := 6
    up := 1
    down := 9
    rcv_cnt := 2
    ghost_pattern_debug := 0
    params := Params_t.sample
    net := 7
    tc := 1 }

/-! ## The rank group `DenseGroup` (firefly/group.h, lines 59-91) -/

/-- The type `std::map<int, int>`, given by its entries in ascending order of the keys. -/
abbrev IntMap := List (Int × Int)

/-- The assignment `m[k] = v`: the entry with the key `k` gets the value `v`; when there
is none, it is inserted at its place in the order. -/
def IntMap.assign : IntMap → Int → Int → IntMap
  | [], k, v => [(k, v)]
  | e :: rest, k, v =>
    if k < e.1 then (k, v) :: e :: rest
    else if k = e.1 then (k, v) :: rest
    else e :: IntMap.assign rest k v

/-- The value stored under the key `k`, if any. -/
def IntMap.find : IntMap → Int → Option Int
  | [], _ => none
  | e :: rest, k => if e.1 = k then some e.2 else IntMap.find rest k

/-- The keys of a well-formed map ascend strictly. -/
def IntMap.Sorted (m : IntMap) : Prop :=
  m.Pairwise (fun a b => a.1 < b.1)

/-- The class `DenseGroup` with the member `m_myRank` of its base class `Group`. -/
structure DenseGroup where
  m_myRank : Int
  m_map : IntMap
  deriving DecidableEq

/-- A new group: `Group()` sets `m_myRank` to -1 and the map is empty. -/
def DenseGroup.empty : DenseGroup :=
  { m_myRank := -1, m_map := [] }

/-- The function `getSize` (lines 62-67): the last key of the map, 0 for an empty map. -/
def DenseGroup.getSize (g : DenseGroup) : Int :=
  match g.m_map.getLast? with
  | none => 0
  | some e => e.1

/-- The function `initMapping(from, to, range)` (lines 69-72): `m_map[from] = to;` and
then `m_map[from + range] = -1;`. -/
def DenseGroup.initMapping (g : DenseGroup) (src dst range : Int) : DenseGroup :=
  { g with m_map := IntMap.assign (IntMap.assign g.m_map src dst) (c_add src range) (-1) }

/-- The loop of `getMapping` (lines 78-85) with `iter` at the head of the given entries.
`next` is the entry after `iter`; on the last entry `next` is `end()`, and the test
`from >= iter->first && from < next->first` reads `next->first` when its first half
holds: that read past the last entry is the result `none`. Leaving the loop without a hit
returns the initial `to = -1`. -/
def DenseGroup.getMapping_loop : IntMap → Int → Option Int
  | [], _ => some (-1)
  | [e], q => if q ≥ e.1 then none else some (-1)
  | e :: n :: rest, q =>
    if q ≥ e.1 ∧ q < n.1 then some (c_add e.2 (c_sub q e.1))
    else DenseGroup.getMapping_loop (n :: rest) q

/-- The function `getMapping(from)` (lines 74-87); `none` when it reads past the last
entry of the map. -/
def DenseGroup.getMapping (g : DenseGroup) (src : Int) : Option Int :=
  DenseGroup.getMapping_loop g.m_map src

/-- A new group after a sequence of `initMapping(from, to, range)` calls, first call
first. -/
def DenseGroup.build (calls : List (Int × Int × Int)) : DenseGroup :=
  calls.foldl (fun g c => g.initMapping c.1 c.2.1 c.2.2) DenseGroup.empty

/-! ## The event handler of `Ghost_pattern` (section 4.2 of the specification) -/

/-- Modelled from the spec: a message of section 3, "{sender rank, logical type (START |
EXCHANGE), payload length in bytes}"; the event class of pattern_common.h is not among
the sources. -/
structure Message where
  sender : Int
  kind : pattern_event_t
  len : Int
  deriving DecidableEq

/-- Modelled from the spec: what the kernel delivers to the handler of a component, a
message or the firing of the compute timer (section 4.2); the event class of
pattern_common.h is not among the sources. -/
inductive Delivery where
  | message (m : Message)
  | compute_timer
  deriving DecidableEq

/-- Modelled from the spec: the requests a handler issues, `scheduleSelfEvent(delay, ..)`
and `sendMessage(.., byteLength, delay)` of section 6; the functions of pattern_common.h
are not among the sources. -/
inductive Request where
  | schedule (delay : ℚ)
  | send (dest : Int) (len : Int) (delay : ℚ)
  deriving DecidableEq

/-- Modelled from the spec: the cost model of section 4.3, "computed as
latency + messageBytes / bandwidth"; its code in pattern_common.h is not among the
sources. -/
def sendDelay (latency bandwidth : ℚ) (messageBytes : Int) : ℚ :=
  latency + (messageBytes : ℚ) / bandwidth

/-- Modelled from the spec: the state the handler of section 4.2 acts on, which is the
members of `Ghost_pattern` together with the RoundCounter of section 3 and the round limit
that may be configured; the handler body (ghost_pattern.cc) is not among the sources and
the class declares neither of the two. -/
structure PatternMachine where
  comp : Ghost_pattern
  round_counter : Nat
  round_limit : Option Nat
  deriving DecidableEq

/-- Modelled from the spec: the condition reported by the handler of section 4.2 for an
event it does not accept; the handler body is not among the sources. -/
inductive ProtocolViolation where
  | unexpected_event
  | not_a_neighbor
  | too_many_arrivals
  deriving DecidableEq

/-- Modelled from the spec: "a configured round limit has not been reached" (section
4.2); no limit configured means never reached. The handler body is not among the
sources. -/
def PatternMachine.limit_not_reached (m : PatternMachine) : Bool :=
  match m.round_limit with
  | none => true
  | some limit => m.round_counter < limit

/-- Modelled from the spec: `Ghost_pattern::handle_events`, which ghost_pattern.h only
declares (line 127); its body is not among the sources. Section 4.2: INIT moves to COMPUTE
on START and schedules the compute timer; COMPUTE, when the timer fires, sends an EXCHANGE
message of length exchange_msg_len to each of the four neighbours, resets the receive
count to 0 and moves to WAIT; WAIT counts an EXCHANGE message of a neighbour and, when the
count reaches 4, increments the round counter, schedules the timer and returns to COMPUTE
if the round limit has not been reached, and moves to DONE otherwise; DONE logs late
messages; every other pair of state and event is a protocol violation. -/
def Ghost_pattern.handle_events (m : PatternMachine) (d : Delivery) :
    Except ProtocolViolation (PatternMachine × List Request) :=
  match m.comp.state, d with
  | state_t.INIT, Delivery.message ⟨_, pattern_event_t.START, _⟩ =>
    .ok ({ m with comp := { m.comp with state := state_t.COMPUTE } },
      [Request.schedule m.comp.compute_time])
  | state_t.COMPUTE, Delivery.compute_timer =>
    let delay := sendDelay m.comp.latency m.comp.bandwidth m.comp.exchange_msg_len
    .ok ({ m with comp := { m.comp with state := state_t.WAIT, rcv_cnt := 0 } },
      [Request.send m.comp.left m.comp.exchange_msg_len delay,
       Request.send m.comp.right m.comp.exchange_msg_len delay,
       Request.send m.comp.up m.comp.exchange_msg_len delay,
       Request.send m.comp.down m.comp.exchange_msg_len delay])
  | state_t.WAIT, Delivery.message ⟨sender, pattern_event_t.EXCHANGE, _⟩ =>
    if sender ∉ [m.comp.left, m.comp.right, m.comp.up, m.comp.down] then
      .error ProtocolViolation.not_a_neighbor
    else if 4 < m.comp.rcv_cnt + 1 then .error ProtocolViolation.too_many_arrivals
    else if m.comp.rcv_cnt + 1 = 4 then
      if m.limit_not_reached then
        .ok ({ m with comp := { m.comp with state := state_t.COMPUTE,
                                            rcv_cnt := m.comp.rcv_cnt + 1 },
                      round_counter := m.round_counter + 1 },
          [Request.schedule m.comp.compute_time])
      else
        .ok ({ m with comp := { m.comp with state := state_t.DONE,
                                            rcv_cnt := m.comp.rcv_cnt + 1 } }, [])
    else
      .ok ({ m with comp := { m.comp with rcv_cnt := m.comp.rcv_cnt + 1 } }, [])
  | state_t.DONE, Delivery.message _ => .ok (m, [])
  | _, _ => .error ProtocolViolation.unexpected_event

/-- Modelled from the spec: the handler applied to a sequence of deliveries in their
order, with the requests it issued; the handler body is not among the sources. -/
def Ghost_pattern.run : List Delivery → PatternMachine →
    Except ProtocolViolation (PatternMachine × List Request)
  | [], m => .ok (m, [])
  | d :: ds, m =>
    match Ghost_pattern.handle_events m d with
    | .error e => .error e
    | .ok (m2, out) =>
      match Ghost_pattern.run ds m2 with
      | .error e => .error e
      | .ok (m3, out2) => .ok (m3, out ++ out2)

/-- The EXCHANGE messages of the given senders, in their order. -/
def exchanges (senders : List Int) (len : Int) : List Delivery :=
  senders.map (fun s => Delivery.message ⟨s, pattern_event_t.EXCHANGE, len⟩)


/-- A machine on the component `Ghost_pattern.sample` at the start of a WAIT phase, with
no round completed and a round limit of 3. -/
def PatternMachine.sample : PatternMachine :=
  { comp := { Ghost_pattern.sample with rcv_cnt := 0 }
    round_counter := 0
    round_limit := some 3 }

/-! ## The compute array `ManualMVMComputeArray` (golem/manualMVMComputeArray.h) -/

/-- Two's-complement reduction of an integer into the range of `int64_t`. -/
def wrap64 (z : Int) : Int :=
  (z + 9223372036854775808) % 18446744073709551616 - 9223372036854775808

/-- The members that `compute` uses: the sizes (members of the base class of
computeArray.h, set in lines 68-69 from `uint64_t` parameters) and the vectors behind the
pointers `inVecs`, `outVecs` and `matrices`, one `std::vector<int64_t>` per array. -/
structure ManualMVMComputeArray where
  arrayInSize : Nat
  arrayOutSize : Nat
  inVecs : List (List Int)
  outVecs : List (List Int)
  matrices : List (List Int)
  deriving DecidableEq

/-- The assignment `vec[i] = x` of a `std::vector`; `none` when `i` is not an index of
the vector. -/
def vec_set (vec : List Int) (i : Nat) (x : Int) : Option (List Int) :=
  if i < vec.length then some (vec.set i x) else none

/-- A loop `for (int i = 0; i < n; i++) body` over a state, with `n` an unsigned 64-bit
size. `none` when the body fails, or when `n` is above INT_MAX: the counter cannot reach
`n`, its increment overflows. -/
def for_int {σ : Type} (n : Nat) (body : Nat → σ → Option σ) (s : σ) : Option σ :=
  if INT_MAX < (n : Int) then none
  else (List.range n).foldlM (fun t i => body i t) s

/-- Line 149: `outVec[row] += matrix[row * arrayInSize + col] * inVec[col];` in 64-bit
arithmetic; `none` when an index is outside its vector. -/
def ManualMVMComputeArray.mac (matrix inVec : List Int) (arrayInSize row col : Nat)
    (outVec : List Int) : Option (List Int) :=
  match matrix[row * arrayInSize + col]?, inVec[col]?, outVec[row]? with
  | some m, some v, some o => vec_set outVec row (wrap64 (o + wrap64 (m * v)))
  | _, _, _ => none

/-- The function `compute(arrayID)` (lines 137-155): the three vectors of the array are
selected, the first `arrayOutSize` outputs are set to 0, and the two nested loops
accumulate the products. `none` when an index is outside its vector or a loop counter
overflows. The printing to `std::cout` is not part of the model. -/
def ManualMVMComputeArray.compute (a : ManualMVMComputeArray) (arrayID : Nat) :
    Option ManualMVMComputeArray :=
  match a.outVecs[arrayID]?, a.inVecs[arrayID]?, a.matrices[arrayID]? with
  | some outVec, some inVec, some matrix =>
    match for_int a.arrayOutSize (fun i out => vec_set out i 0) outVec with
    | none => none
    | some cleared =>
      match for_int a.arrayOutSize (fun row out =>
          for_int a.arrayInSize (fun col out2 =>
            ManualMVMComputeArray.mac matrix inVec a.arrayInSize row col out2) out)
          cleared with
      | none => none
      | some outVec2 => some { a with outVecs := a.outVecs.set arrayID outVec2 }
  | _, _, _ => none

/-- The product of row `row` of the row-major matrix with the vector, over the
integers. -/
def mvm_row (matrix inVec : List Int) (arrayInSize row : Nat) : Int :=
  ∑ col in Finset.range arrayInSize,
    (matrix.getD (row * arrayInSize + col) 0) * (inVec.getD col 0)


/-! ## Properties of the neighbour computation -/

/-- C1, evaluated on the 2 x 3 torus: the neighbours computed by the constructor are not
reciprocal. The down neighbour computed for rank 0 is 3, but the up neighbour computed
for 3 is 1; the up neighbour computed for rank 3 is 1, but the down neighbour computed
for 1 is 4; the right neighbour computed for rank 2 is 1, but the left neighbour computed
for 1 is 0; the left neighbour computed for rank 2 is 1, but the right neighbour computed
for 1 is 0. So reciprocity does not hold for every x_dim > 0, y_dim > 0 and rank in
range. -/
theorem neighbors_not_reciprocal_2x3 :
    ((Neighbors.down 0 2 3 = 3 ∧ Neighbors.up 3 2 3 = 1) ∧
     (Neighbors.up 3 2 3 = 1 ∧ Neighbors.down 1 2 3 = 4) ∧
     (Neighbors.right 2 2 3 = 1 ∧ Neighbors.left 1 2 3 = 0) ∧
     (Neighbors.left 2 2 3 = 1 ∧ Neighbors.right 1 2 3 = 0)) ∧
    ¬ (∀ x_dim y_dim r : Int, 0 < x_dim → 0 < y_dim → 0 ≤ r → r < x_dim * y_dim →
        Neighbors.left (Neighbors.right r x_dim y_dim) x_dim y_dim = r ∧
        Neighbors.right (Neighbors.left r x_dim y_dim) x_dim y_dim = r ∧
        Neighbors.up (Neighbors.down r x_dim y_dim) x_dim y_dim = r ∧
        Neighbors.down (Neighbors.up r x_dim y_dim) x_dim y_dim = r) := by
  refine ⟨by decide, fun h => ?_⟩
  have h2 := (h 2 3 2 (by decide) (by decide) (by decide) (by decide)).1
  revert h2
  decide

/-- C2, evaluated on the 2 x 3 torus at rank 0 (position x = 0, y = 0): the constructor
computes down = 3 and up = 6 where the row-major reference torus has down = 2 (the rank
at (0, 1)) and up = 4 (the rank at (0, 2)); at rank 2 (position x = 0, y = 1) it computes
right = 1 and left = 1 where the reference has right = 3 and left = 3. So the computed
neighbours are not those of the reference torus for every x_dim > 0, y_dim > 0 and rank
in range. -/
theorem neighbors_differ_from_torus_2x3 :
    ((Neighbors.down 0 2 3 = 3 ∧ TorusSpec.down 0 2 3 = 2) ∧
     (Neighbors.up 0 2 3 = 6 ∧ TorusSpec.up 0 2 3 = 4) ∧
     (Neighbors.right 2 2 3 = 1 ∧ TorusSpec.right 2 2 3 = 3) ∧
     (Neighbors.left 2 2 3 = 1 ∧ TorusSpec.left 2 2 3 = 3)) ∧
    ¬ (∀ x_dim y_dim r : Int, 0 < x_dim → 0 < y_dim → 0 ≤ r → r < x_dim * y_dim →
        Neighbors.right r x_dim y_dim = TorusSpec.right r x_dim y_dim ∧
        Neighbors.left r x_dim y_dim = TorusSpec.left r x_dim y_dim ∧
        Neighbors.down r x_dim y_dim = TorusSpec.down r x_dim y_dim ∧
        Neighbors.up r x_dim y_dim = TorusSpec.up r x_dim y_dim) := by
  refine ⟨by decide, fun h => ?_⟩
  have h2 := (h 2 3 0 (by decide) (by decide) (by decide) (by decide)).2.2.1
  revert h2
  decide

/-- C3: for x_dim = 4, y_dim = 4 and rank = 5 the neighbour computation of the
constructor yields right = 6, left = 4, up = 1 and down = 9, and these are the members of
the component constructed from such a parameter map. -/
theorem neighbors_4x4_rank5 :
    (Neighbors.right 5 4 4 = 6 ∧ Neighbors.left 5 4 4 = 4 ∧
      Neighbors.up 5 4 4 = 1 ∧ Neighbors.down 5 4 4 = 9) ∧
    ∃ c evs, Ghost_pattern.construct Env.sample 3 Params_t.sample = .ok (c, evs) ∧
      c.right = 6 ∧ c.left = 4 ∧ c.up = 1 ∧ c.down = 9 :=
  ⟨by decide, _, _, rfl, by decide, by decide, by decide, by decide⟩

/-! ## The neighbour computation on square tori -/

/-- A value in the `int` range is its own reduction. -/
theorem wrap32_of_range (z : Int) (h0 : INT_MIN ≤ z) (h1 : z ≤ INT_MAX) : wrap32 z = z := by
  unfold INT_MIN at h0
  unfold INT_MAX at h1
  unfold wrap32
  omega

/-- C `%` on non-negative operands is the mathematical remainder. -/
theorem c_mod_eq (a b : Int) (ha : 0 ≤ a) (hb : 0 < b) : c_mod a b = a % b :=
  Int.tmod_eq_emod ha (le_of_lt hb)

/-- C `/` on a non-negative `int` and a positive divisor is the mathematical quotient. -/
theorem c_div_eq (a b : Int) (ha : 0 ≤ a) (hb : 0 < b) (hmax : a ≤ INT_MAX) :
    c_div a b = a / b := by
  unfold c_div
  rw [Int.tdiv_eq_ediv ha (le_of_lt hb)]
  have h0 : 0 ≤ a / b := Int.ediv_nonneg ha (le_of_lt hb)
  have h1 : a / b ≤ a := Int.ediv_le_self b ha
  apply wrap32_of_range
  · unfold INT_MIN; omega
  · omega

/-- The successor of a coordinate modulo `n`. -/
theorem succ_mod_cases (x n : Int) (hx0 : 0 ≤ x) (hx1 : x < n) :
    (x + 1 < n ∧ (x + 1) % n = x + 1) ∨ (x + 1 = n ∧ (x + 1) % n = 0) := by
  rcases lt_or_eq_of_le (show x + 1 ≤ n by omega) with h | h
  · exact Or.inl ⟨h, Int.emod_eq_of_lt (by omega) h⟩
  · exact Or.inr ⟨h, by rw [h, Int.emod_self]⟩

/-- The predecessor of a coordinate modulo `n`. -/
theorem pred_mod_cases (x n : Int) (hx0 : 0 ≤ x) (hx1 : x < n) :
    (0 < x ∧ (x - 1 + n) % n = x - 1) ∨ (x = 0 ∧ (x - 1 + n) % n = n - 1) := by
  rcases lt_or_eq_of_le hx0 with h | h
  · refine Or.inl ⟨h, ?_⟩
    rw [Int.add_emod_self]
    exact Int.emod_eq_of_lt (by omega) (by omega)
  · refine Or.inr ⟨h.symm, ?_⟩
    rw [← h]
    have : (0 - 1 + n) = n - 1 := by ring
    rw [this]
    exact Int.emod_eq_of_lt (by omega) (by omega)

/-- Column and row of the rank `y * n + x`. -/
theorem rank_decompose (x y n : Int) (hx0 : 0 ≤ x) (hx1 : x < n) :
    (y * n + x) % n = x ∧ (y * n + x) / n = y := by
  have hn : 0 < n := by omega
  constructor
  · rw [add_comm, Int.add_mul_emod_self]
    exact Int.emod_eq_of_lt hx0 hx1
  · rw [add_comm, Int.add_mul_ediv_right _ _ (ne_of_gt hn), Int.ediv_eq_zero_of_lt hx0 hx1]
    ring

/-- Column and row of a rank of the `n x n` torus are below `n`, and give the rank back. -/
theorem rank_coords (r n : Int) (hn : 0 < n) (h0 : 0 ≤ r) (h1 : r < n * n) :
    0 ≤ r % n ∧ r % n < n ∧ 0 ≤ r / n ∧ r / n < n ∧ r / n * n + r % n = r := by
  refine ⟨Int.emod_nonneg _ (ne_of_gt hn), Int.emod_lt_of_pos _ hn,
    Int.ediv_nonneg h0 (le_of_lt hn), Int.ediv_lt_of_lt_mul hn h1, ?_⟩
  have := Int.ediv_add_emod r n
  linarith [mul_comm n (r / n)]

/-- C `+` without overflow. -/
theorem c_add_eq (a b : Int) (h0 : 0 ≤ a + b) (h1 : a + b ≤ INT_MAX) : c_add a b = a + b :=
  wrap32_of_range _ (by unfold INT_MIN; omega) h1

/-- C `-` without overflow. -/
theorem c_sub_eq (a b : Int) (h0 : -1 ≤ a - b) (h1 : a - b ≤ INT_MAX) : c_sub a b = a - b :=
  wrap32_of_range _ (by unfold INT_MIN; omega) h1

/-- C `*` without overflow. -/
theorem c_mul_eq (a b : Int) (h0 : 0 ≤ a * b) (h1 : a * b ≤ INT_MAX) : c_mul a b = a * b :=
  wrap32_of_range _ (by unfold INT_MIN; omega) h1

/-- A coordinate times the width stays below the rank count. -/
theorem coord_mul_bound (a n : Int) (ha0 : 0 ≤ a) (ha1 : a < n) :
    0 ≤ a * n ∧ a * n + n ≤ n * n := by
  constructor
  · exact mul_nonneg ha0 (by omega)
  · nlinarith

/-- On the `n x n` torus whose rank count `n * n` is an `int`, lines 113-118 compute,
without overflow, the values of the formulas read over the integers. -/
theorem square_neighbors (r n : Int) (hn : 0 < n) (hmax : n * n ≤ INT_MAX)
    (h0 : 0 ≤ r) (h1 : r < n * n) :
    Neighbors.right r n n = (r % n + 1) % n + r / n * n ∧
    Neighbors.left r n n = (r % n - 1 + n) % n + r / n * n ∧
    Neighbors.down r n n = r % n + (r / n + 1) % n * n ∧
    Neighbors.up r n n = r % n + (r / n - 1 + n) % n * n := by
  obtain ⟨hx0, hx1, hy0, hy1, hxy⟩ := rank_coords r n hn h0 h1
  have hrmax : r ≤ INT_MAX := by omega
  have hnn : n ≤ n * n := by nlinarith
  have hX : Neighbors.myX r n = r % n := c_mod_eq r n h0 hn
  have hY : Neighbors.myY r n = r / n := c_div_eq r n h0 hn hrmax
  obtain ⟨hyn0, hyn1⟩ := coord_mul_bound (r / n) n hy0 hy1
  have hYn : c_mul (r / n) n = r / n * n := c_mul_eq _ _ hyn0 (by omega)
  have hx1' : c_add (r % n) 1 = r % n + 1 := c_add_eq _ _ (by omega) (by omega)
  have hy1' : c_add (r / n) 1 = r / n + 1 := c_add_eq _ _ (by omega) (by omega)
  have hxm : c_sub (r % n) 1 = r % n - 1 := c_sub_eq _ _ (by omega) (by omega)
  have hym : c_sub (r / n) 1 = r / n - 1 := c_sub_eq _ _ (by omega) (by omega)
  have h2n : n + n ≤ INT_MAX + 1 := by
    rcases lt_or_eq_of_le (show 1 ≤ n by omega) with h | h
    · have : n + n ≤ n * n := by nlinarith
      omega
    · rw [← h]; unfold INT_MAX; omega
  have hxmn : c_add (r % n - 1) n = r % n - 1 + n := c_add_eq _ _ (by omega) (by omega)
  have hymn : c_add (r / n - 1) n = r / n - 1 + n := c_add_eq _ _ (by omega) (by omega)
  have hsx0 := Int.emod_nonneg (r % n + 1) (ne_of_gt hn)
  have hsx1 := Int.emod_lt_of_pos (r % n + 1) hn
  have hpx0 := Int.emod_nonneg (r % n - 1 + n) (ne_of_gt hn)
  have hpx1 := Int.emod_lt_of_pos (r % n - 1 + n) hn
  have hsy0 := Int.emod_nonneg (r / n + 1) (ne_of_gt hn)
  have hsy1 := Int.emod_lt_of_pos (r / n + 1) hn
  have hpy0 := Int.emod_nonneg (r / n - 1 + n) (ne_of_gt hn)
  have hpy1 := Int.emod_lt_of_pos (r / n - 1 + n) hn
  obtain ⟨hsyn0, hsyn1⟩ := coord_mul_bound ((r / n + 1) % n) n hsy0 hsy1
  obtain ⟨hpyn0, hpyn1⟩ := coord_mul_bound ((r / n - 1 + n) % n) n hpy0 hpy1
  refine ⟨?_, ?_, ?_, ?_⟩
  · unfold Neighbors.right
    rw [hX, hY, hx1', hYn, c_mod_eq _ _ (by omega) hn, c_add_eq _ _ (by omega) (by omega)]
  · unfold Neighbors.left
    rw [hX, hY, hxm, hxmn, hYn, c_mod_eq _ _ (by omega) hn,
      c_add_eq _ _ (by omega) (by omega)]
  · unfold Neighbors.down
    rw [hX, hY, hy1', c_mod_eq _ _ (by omega) hn, c_mul_eq _ _ hsyn0 (by omega),
      c_add_eq _ _ (by omega) (by omega)]
  · unfold Neighbors.up
    rw [hX, hY, hym, hymn, c_mod_eq _ _ (by omega) hn, c_mul_eq _ _ hpyn0 (by omega),
      c_add_eq _ _ (by omega) (by omega)]

/-- Stepping forth and back along an axis returns to the coordinate. -/
theorem pred_succ_mod (x n : Int) (hx0 : 0 ≤ x) (hx1 : x < n) :
    ((x + 1) % n - 1 + n) % n = x := by
  rcases succ_mod_cases x n hx0 hx1 with ⟨hlt, he⟩ | ⟨heq, he⟩
  · rw [he]
    rcases pred_mod_cases (x + 1) n (by omega) hlt with ⟨_, hp⟩ | ⟨hz, _⟩
    · rw [hp]; ring
    · omega
  · rw [he]
    rcases pred_mod_cases 0 n (le_refl 0) (by omega) with ⟨hpos, _⟩ | ⟨_, hp⟩
    · omega
    · rw [hp]; omega

/-- Stepping back and forth along an axis returns to the coordinate. -/
theorem succ_pred_mod (x n : Int) (hx0 : 0 ≤ x) (hx1 : x < n) :
    ((x - 1 + n) % n + 1) % n = x := by
  rcases pred_mod_cases x n hx0 hx1 with ⟨hpos, he⟩ | ⟨hz, he⟩
  · rw [he]
    rcases succ_mod_cases (x - 1) n (by omega) (by omega) with ⟨_, hs⟩ | ⟨heq, _⟩
    · rw [hs]; ring
    · omega
  · rw [he]
    rcases succ_mod_cases (n - 1) n (by omega) (by omega) with ⟨hlt, _⟩ | ⟨_, hs⟩
    · omega
    · rw [hs]; omega

/-- On the `n x n` torus whose rank count is an `int`, the computed neighbours are the
neighbours of the row-major reference torus. -/
theorem square_neighbors_eq_torus (r n : Int) (hn : 0 < n) (hmax : n * n ≤ INT_MAX)
    (h0 : 0 ≤ r) (h1 : r < n * n) :
    Neighbors.right r n n = TorusSpec.right r n n ∧
    Neighbors.left r n n = TorusSpec.left r n n ∧
    Neighbors.down r n n = TorusSpec.down r n n ∧
    Neighbors.up r n n = TorusSpec.up r n n := by
  obtain ⟨hr, hl, hd, hu⟩ := square_neighbors r n hn hmax h0 h1
  unfold TorusSpec.right TorusSpec.left TorusSpec.down TorusSpec.up TorusSpec.rank
    TorusSpec.x TorusSpec.y
  refine ⟨?_, ?_, ?_, ?_⟩
  · rw [hr]; ring
  · rw [hl, Int.add_emod_self]; ring
  · rw [hd]; ring
  · rw [hu, ← Int.add_emod_self (a := r / n - 1)]; ring

/-- On the `n x n` torus whose rank count is an `int`, the computed neighbours are ranks
of the torus. -/
theorem square_neighbors_range (r n : Int) (hn : 0 < n) (hmax : n * n ≤ INT_MAX)
    (h0 : 0 ≤ r) (h1 : r < n * n) :
    (0 ≤ Neighbors.right r n n ∧ Neighbors.right r n n < n * n) ∧
    (0 ≤ Neighbors.left r n n ∧ Neighbors.left r n n < n * n) ∧
    (0 ≤ Neighbors.down r n n ∧ Neighbors.down r n n < n * n) ∧
    (0 ≤ Neighbors.up r n n ∧ Neighbors.up r n n < n * n) := by
  obtain ⟨hr, hl, hd, hu⟩ := square_neighbors r n hn hmax h0 h1
  obtain ⟨hx0, hx1, hy0, hy1, _⟩ := rank_coords r n hn h0 h1
  obtain ⟨hyn0, hyn1⟩ := coord_mul_bound (r / n) n hy0 hy1
  have hsx0 := Int.emod_nonneg (r % n + 1) (ne_of_gt hn)
  have hsx1 := Int.emod_lt_of_pos (r % n + 1) hn
  have hpx0 := Int.emod_nonneg (r % n - 1 + n) (ne_of_gt hn)
  have hpx1 := Int.emod_lt_of_pos (r % n - 1 + n) hn
  obtain ⟨hsyn0, hsyn1⟩ := coord_mul_bound ((r / n + 1) % n) n
    (Int.emod_nonneg _ (ne_of_gt hn)) (Int.emod_lt_of_pos _ hn)
  obtain ⟨hpyn0, hpyn1⟩ := coord_mul_bound ((r / n - 1 + n) % n) n
    (Int.emod_nonneg _ (ne_of_gt hn)) (Int.emod_lt_of_pos _ hn)
  rw [hr, hl, hd, hu]
  refine ⟨⟨?_, ?_⟩, ⟨?_, ?_⟩, ⟨?_, ?_⟩, ⟨?_, ?_⟩⟩ <;> omega

/-- On the `n x n` torus whose rank count is an `int`, the computed neighbours are
reciprocal on both axes. -/
theorem square_neighbors_reciprocal (r n : Int) (hn : 0 < n) (hmax : n * n ≤ INT_MAX)
    (h0 : 0 ≤ r) (h1 : r < n * n) :
    Neighbors.left (Neighbors.right r n n) n n = r ∧
    Neighbors.right (Neighbors.left r n n) n n = r ∧
    Neighbors.up (Neighbors.down r n n) n n = r ∧
    Neighbors.down (Neighbors.up r n n) n n = r := by
  obtain ⟨⟨hr0, hr1⟩, ⟨hl0, hl1⟩, ⟨hd0, hd1⟩, ⟨hu0, hu1⟩⟩ :=
    square_neighbors_range r n hn hmax h0 h1
  obtain ⟨hx0, hx1, hy0, hy1, hxy⟩ := rank_coords r n hn h0 h1
  have hL := (square_neighbors _ n hn hmax hr0 hr1).2.1
  have hR := (square_neighbors _ n hn hmax hl0 hl1).1
  have hU := (square_neighbors _ n hn hmax hd0 hd1).2.2.2
  have hD := (square_neighbors _ n hn hmax hu0 hu1).2.2.1
  obtain ⟨hr, hl, hd, hu⟩ := square_neighbors r n hn hmax h0 h1
  have hsx0 := Int.emod_nonneg (r % n + 1) (ne_of_gt hn)
  have hsx1 := Int.emod_lt_of_pos (r % n + 1) hn
  have hpx0 := Int.emod_nonneg (r % n - 1 + n) (ne_of_gt hn)
  have hpx1 := Int.emod_lt_of_pos (r % n - 1 + n) hn
  refine ⟨?_, ?_, ?_, ?_⟩
  · obtain ⟨hm, hq⟩ := rank_decompose ((r % n + 1) % n) (r / n) n hsx0 hsx1
    rw [hL, hr, add_comm _ (r / n * n), hm, hq, pred_succ_mod _ n hx0 hx1]
    omega
  · obtain ⟨hm, hq⟩ := rank_decompose ((r % n - 1 + n) % n) (r / n) n hpx0 hpx1
    rw [hR, hl, add_comm _ (r / n * n), hm, hq, succ_pred_mod _ n hx0 hx1]
    omega
  · obtain ⟨hm, hq⟩ := rank_decompose (r % n) ((r / n + 1) % n) n hx0 hx1
    rw [hU, hd, add_comm (r % n), hm, hq, pred_succ_mod _ n hy0 hy1]
    omega
  · obtain ⟨hm, hq⟩ := rank_decompose (r % n) ((r / n - 1 + n) % n) n hx0 hx1
    rw [hD, hu, add_comm (r % n), hm, hq, succ_pred_mod _ n hy0 hy1]
    omega

/-! ## Properties of the constructor -/

/-- The constructor never reaches the neighbour computation with a zero divisor. -/
theorem construct_ne_zero_divisor (env : Env) (id : ComponentId_t) (params : Params_t) :
    Ghost_pattern.construct env id params ≠ .error .zero_divisor := by
  unfold Ghost_pattern.construct
  cases env.configureLink with
  | none => simp
  | some net =>
    simp only [Patterns.init]
    by_cases h1 : (Parsed.parse env params).x_dim ≤ 0 ∨ (Parsed.parse env params).y_dim ≤ 0 ∨
        (Parsed.parse env params).my_rank < 0 ∨
        (Parsed.parse env params).x_dim * (Parsed.parse env params).y_dim
          ≤ (Parsed.parse env params).my_rank ∨
        (Parsed.parse env params).latency < 0 ∨ (Parsed.parse env params).bandwidth ≤ 0
    · simp only [if_pos h1]
      simp
    · have h2 : ¬ ((Parsed.parse env params).x_dim = 0 ∨ (Parsed.parse env params).y_dim = 0) := by
        intro h2
        apply h1
        rcases h2 with h2 | h2
        · exact Or.inl (le_of_eq h2)
        · exact Or.inr (Or.inl (le_of_eq h2))
      simp only [if_neg h1, if_neg h2]
      simp

/-- C4: when the configured x_dim is not positive, or y_dim is not positive, or the rank
lies outside [0, x_dim*y_dim), the constructor ends in `_ABORT` and builds no component
(so no neighbour set); and for no input at all does it evaluate the divisions and
remainders by x_dim and y_dim with a zero divisor. -/
theorem construct_rejects_bad_topology (env : Env) (id : ComponentId_t) (params : Params_t) :
    Ghost_pattern.construct env id params ≠ .error .zero_divisor ∧
    ((Parsed.parse env params).x_dim ≤ 0 ∨ (Parsed.parse env params).y_dim ≤ 0 ∨
      (Parsed.parse env params).my_rank < 0 ∨
      (Parsed.parse env params).x_dim * (Parsed.parse env params).y_dim
        ≤ (Parsed.parse env params).my_rank →
      ∃ msg, Ghost_pattern.construct env id params = .error (.abort msg)) := by
  refine ⟨construct_ne_zero_divisor env id params, fun h => ?_⟩
  unfold Ghost_pattern.construct
  cases env.configureLink with
  | none => exact ⟨_, rfl⟩
  | some net =>
    have hbad : (Parsed.parse env params).x_dim ≤ 0 ∨ (Parsed.parse env params).y_dim ≤ 0 ∨
        (Parsed.parse env params).my_rank < 0 ∨
        (Parsed.parse env params).x_dim * (Parsed.parse env params).y_dim
          ≤ (Parsed.parse env params).my_rank ∨
        (Parsed.parse env params).latency < 0 ∨ (Parsed.parse env params).bandwidth ≤ 0 := by
      rcases h with h | h | h | h
      · exact Or.inl h
      · exact Or.inr (Or.inl h)
      · exact Or.inr (Or.inr (Or.inl h))
      · exact Or.inr (Or.inr (Or.inr (Or.inl h)))
    simp only [Patterns.init, if_pos hbad]
    exact ⟨_, rfl⟩

/-- C4 at a concrete input: a 0 x 4 torus is rejected. -/
theorem construct_rejects_bad_topology_witness :
    (Parsed.parse Env.sample [("rank", "5"), ("x_dim", "0"), ("y_dim", "4")]).x_dim ≤ 0 ∧
    ∃ msg, Ghost_pattern.construct Env.sample 3 [("rank", "5"), ("x_dim", "0"), ("y_dim", "4")]
      = .error (.abort msg) :=
  ⟨by decide,
   (construct_rejects_bad_topology Env.sample 3
      [("rank", "5"), ("x_dim", "0"), ("y_dim", "4")]).2 (Or.inl (by decide))⟩

/-- What a successful construction has done. -/
theorem construct_ok_inv {env : Env} {id : ComponentId_t} {params : Params_t}
    {c : Ghost_pattern} {evs : List SentEvent}
    (h : Ghost_pattern.construct env id params = .ok (c, evs)) :
    ∃ net common, env.configureLink = some net ∧
      Patterns.init (Parsed.parse env params).x_dim (Parsed.parse env params).y_dim
        (Parsed.parse env params).my_rank net (Parsed.parse env params).latency
        (Parsed.parse env params).bandwidth = some common ∧
      c.id = id ∧ c.params = params ∧ c.common = common ∧
      c.my_rank = (Parsed.parse env params).my_rank ∧
      c.compute_time = (Parsed.parse env params).compute_time ∧
      c.exchange_msg_len = (Parsed.parse env params).exchange_msg_len ∧
      c.ghost_pattern_debug = (Parsed.parse env params).ghost_pattern_debug ∧
      c.state = state_t.INIT ∧ c.rcv_cnt = 0 ∧
      evs = [⟨(Parsed.parse env params).my_rank, pattern_event_t.START, 0⟩] := by
  unfold Ghost_pattern.construct at h
  cases hl : env.configureLink with
  | none => simp [hl] at h
  | some net =>
    simp only [hl] at h
    cases hi : Patterns.init (Parsed.parse env params).x_dim (Parsed.parse env params).y_dim
        (Parsed.parse env params).my_rank net (Parsed.parse env params).latency
        (Parsed.parse env params).bandwidth with
    | none => simp [hi] at h
    | some common =>
      simp only [hi] at h
      split_ifs at h
      simp only [Except.ok.injEq, Prod.mk.injEq] at h
      obtain ⟨hc, he⟩ := h
      subst hc
      exact ⟨net, common, rfl, hi, rfl, rfl, rfl, rfl, rfl, rfl, rfl, rfl, rfl, he.symm⟩

/-- A valid configuration with a network link is constructed. -/
theorem construct_ok_of_valid (env : Env) (id : ComponentId_t) (params : Params_t)
    (net : Link) (hl : env.configureLink = some net)
    (hx : 0 < (Parsed.parse env params).x_dim) (hy : 0 < (Parsed.parse env params).y_dim)
    (hr0 : 0 ≤ (Parsed.parse env params).my_rank)
    (hr1 : (Parsed.parse env params).my_rank
      < (Parsed.parse env params).x_dim * (Parsed.parse env params).y_dim)
    (hlat : 0 ≤ (Parsed.parse env params).latency)
    (hbw : 0 < (Parsed.parse env params).bandwidth) :
    ∃ c evs, Ghost_pattern.construct env id params = .ok (c, evs) := by
  have hgood : ¬ ((Parsed.parse env params).x_dim ≤ 0 ∨ (Parsed.parse env params).y_dim ≤ 0 ∨
      (Parsed.parse env params).my_rank < 0 ∨
      (Parsed.parse env params).x_dim * (Parsed.parse env params).y_dim
        ≤ (Parsed.parse env params).my_rank ∨
      (Parsed.parse env params).latency < 0 ∨ (Parsed.parse env params).bandwidth ≤ 0) := by
    rintro (h | h | h | h | h | h)
    · exact absurd hx (not_lt.mpr h)
    · exact absurd hy (not_lt.mpr h)
    · exact absurd h (not_lt.mpr hr0)
    · exact absurd hr1 (not_lt.mpr h)
    · exact absurd h (not_lt.mpr hlat)
    · exact absurd hbw (not_lt.mpr h)
  have hnz : ¬ ((Parsed.parse env params).x_dim = 0 ∨ (Parsed.parse env params).y_dim = 0) := by
    rintro (h | h)
    · rw [h] at hx; exact lt_irrefl _ hx
    · rw [h] at hy; exact lt_irrefl _ hy
  unfold Ghost_pattern.construct
  simp only [hl, Patterns.init, if_neg hgood, if_neg hnz]
  exact ⟨_, _, rfl⟩

/-- C8: a valid configuration (positive dimensions, rank in range, non-negative latency,
positive bandwidth, network link present) is constructed, and every successful
construction leaves the component in state INIT with receive count 0 and sends exactly
one event: a START event addressed to the component's own rank, with delay 0. -/
theorem construct_init_state_and_start (env : Env) (id : ComponentId_t) (params : Params_t) :
    (∀ net, env.configureLink = some net →
      0 < (Parsed.parse env params).x_dim → 0 < (Parsed.parse env params).y_dim →
      0 ≤ (Parsed.parse env params).my_rank →
      (Parsed.parse env params).my_rank
        < (Parsed.parse env params).x_dim * (Parsed.parse env params).y_dim →
      0 ≤ (Parsed.parse env params).latency → 0 < (Parsed.parse env params).bandwidth →
      ∃ c evs, Ghost_pattern.construct env id params = .ok (c, evs)) ∧
    (∀ c evs, Ghost_pattern.construct env id params = .ok (c, evs) →
      c.state = state_t.INIT ∧ c.rcv_cnt = 0 ∧
      evs = [⟨c.my_rank, pattern_event_t.START, 0⟩]) := by
  refine ⟨fun net hl hx hy hr0 hr1 hlat hbw =>
    construct_ok_of_valid env id params net hl hx hy hr0 hr1 hlat hbw, fun c evs h => ?_⟩
  obtain ⟨_, _, _, _, _, _, _, hrank, _, _, _, hst, hrc, hev⟩ := construct_ok_inv h
  exact ⟨hst, hrc, by rw [hrank]; exact hev⟩

/-- C8 at a concrete input: rank 5 of the 4 x 4 torus. -/
theorem construct_init_state_and_start_witness :
    (∃ c evs, Ghost_pattern.construct Env.sample 3 Params_t.sample = .ok (c, evs)) ∧
    ∃ c evs, Ghost_pattern.construct Env.sample 3 Params_t.sample = .ok (c, evs) ∧
      c.state = state_t.INIT ∧ c.rcv_cnt = 0 ∧
      evs = [⟨5, pattern_event_t.START, 0⟩] ∧ c.my_rank = 5 :=
  ⟨(construct_init_state_and_start Env.sample 3 Params_t.sample).1 7 rfl
     (by decide) (by decide) (by decide) (by decide) (by decide) (by decide),
   { Ghost_pattern.sample with state := state_t.INIT, rcv_cnt := 0 },
   [⟨5, pattern_event_t.START, 0⟩], rfl,
   ((construct_init_state_and_start Env.sample 3 Params_t.sample).2 _ _ rfl).1,
   ((construct_init_state_and_start Env.sample 3 Params_t.sample).2 _ _ rfl).2.1,
   rfl, rfl⟩

/-- The constructor ends in `_ABORT` when the latency is negative or the bandwidth is not
positive, the default -1 of an absent key included. -/
theorem construct_rejects_bad_timing (env : Env) (id : ComponentId_t) (params : Params_t)
    (h : (Parsed.parse env params).latency < 0 ∨ (Parsed.parse env params).bandwidth ≤ 0) :
    ∃ msg, Ghost_pattern.construct env id params = .error (.abort msg) := by
  unfold Ghost_pattern.construct
  cases env.configureLink with
  | none => exact ⟨_, rfl⟩
  | some net =>
    have hbad : (Parsed.parse env params).x_dim ≤ 0 ∨ (Parsed.parse env params).y_dim ≤ 0 ∨
        (Parsed.parse env params).my_rank < 0 ∨
        (Parsed.parse env params).x_dim * (Parsed.parse env params).y_dim
          ≤ (Parsed.parse env params).my_rank ∨
        (Parsed.parse env params).latency < 0 ∨ (Parsed.parse env params).bandwidth ≤ 0 := by
      rcases h with h | h
      · exact Or.inr (Or.inr (Or.inr (Or.inr (Or.inl h))))
      · exact Or.inr (Or.inr (Or.inr (Or.inr (Or.inr h))))
    simp only [Patterns.init, if_pos hbad]
    exact ⟨_, rfl⟩

/-- C9, evaluated: a parameter map without the key compute_time, and one with
compute_time = -5, are both constructed; the component holds compute_time = -1 and
compute_time = -5. -/
theorem construct_accepts_negative_compute_time :
    (∃ c evs, Ghost_pattern.construct Env.sample 3
        [("bandwidth", "1000"), ("latency", "50"), ("rank", "5"), ("x_dim", "4"),
         ("y_dim", "4")] = .ok (c, evs) ∧ c.compute_time = -1) ∧
    (∃ c evs, Ghost_pattern.construct Env.sample 3
        [("bandwidth", "1000"), ("compute_time", "-5"), ("latency", "50"), ("rank", "5"),
         ("x_dim", "4"), ("y_dim", "4")] = .ok (c, evs) ∧ c.compute_time = -5) :=
  ⟨⟨_, _, rfl, rfl⟩, ⟨_, _, rfl, rfl⟩⟩

/-! ## The conversion `%d` on decimal numerals -/

/-- The character of a digit has the code of the digit plus 48. -/
theorem digit_char_toNat (d : Nat) (hd : d < 10) : (Char.ofNat (d + 48)).toNat = d + 48 := by
  interval_cases d <;> rfl

/-- Reading one more digit multiplies the value by ten and adds the digit. -/
theorem digits_value_append (l : List Char) (c : Char) :
    digits_value (l ++ [c]) = 10 * digits_value l + (c.toNat - 48) := by
  unfold digits_value
  rw [List.foldl_append]
  rfl

/-- The value of the characters of a digit list is the number the list denotes. -/
theorem digits_value_digits (L : List Nat) (hL : ∀ d ∈ L, d < 10) :
    digits_value (L.reverse.map (fun d => Char.ofNat (d + 48))) = Nat.ofDigits 10 L := by
  induction L with
  | nil => rfl
  | cons d L ih =>
    rw [List.reverse_cons, List.map_append, List.map_singleton, digits_value_append,
      ih (fun e he => hL e (List.mem_cons_of_mem _ he)),
      digit_char_toNat d (hL d (List.mem_cons_self _ _)), Nat.ofDigits_cons]
    omega

/-- The value of the numeral of `n` is `n`. -/
theorem decimal_nat_value (n : Nat) : digits_value (decimal_nat n) = n := by
  unfold decimal_nat
  split_ifs with h
  · subst h; rfl
  · rw [digits_value_digits _ (fun d hd => Nat.digits_lt_base (by norm_num) hd),
      Nat.ofDigits_digits]

/-- A numeral consists of digits. -/
theorem decimal_nat_isdigit (n : Nat) : ∀ c ∈ decimal_nat n, c_isdigit c = true := by
  unfold decimal_nat
  split_ifs with h
  · intro c hc
    rw [List.mem_singleton] at hc
    subst hc
    rfl
  · intro c hc
    rw [List.mem_map] at hc
    obtain ⟨d, hd, rfl⟩ := hc
    have hlt : d < 10 := Nat.digits_lt_base (by norm_num) (List.mem_reverse.mp hd)
    unfold c_isdigit
    rw [digit_char_toNat d hlt]
    simp
    omega

/-- A numeral has at least one digit. -/
theorem decimal_nat_ne_nil (n : Nat) : decimal_nat n ≠ [] := by
  unfold decimal_nat
  split_ifs with h
  · simp
  · simp [Nat.digits_eq_nil_iff_eq_zero, h]

/-- A digit is not white space. -/
theorem isspace_of_isdigit (c : Char) (h : c_isdigit c = true) : c_isspace c = false := by
  unfold c_isdigit at h
  unfold c_isspace
  simp only [Bool.and_eq_true, decide_eq_true_eq] at h
  simp only [Bool.or_eq_false_iff, Bool.and_eq_false_iff, decide_eq_false_iff_not]
  omega

/-- A digit is not taken for a sign. -/
theorem scan_sign_digit (c : Char) (rest : List Char) (h : c_isdigit c = true) :
    scan_sign (c :: rest) = (false, c :: rest) := by
  unfold scan_sign
  split
  · rename_i heq
    injection heq with h1 h2
    subst h1
    exact absurd h (by decide)
  · rename_i heq
    injection heq with h1 h2
    subst h1
    exact absurd h (by decide)
  · rfl

/-- On a non-empty run of digits `%d` reads the value of the run. -/
theorem scan_digits (ds : List Char) (hne : ds ≠ []) (hd : ∀ c ∈ ds, c_isdigit c = true) :
    (List.dropWhile c_isspace ds = ds) ∧ scan_sign ds = (false, ds) ∧
      ds.takeWhile c_isdigit = ds := by
  cases ds with
  | nil => exact absurd rfl hne
  | cons c rest =>
    have hc := hd c (List.mem_cons_self _ _)
    refine ⟨?_, scan_sign_digit c rest hc, ?_⟩
    · rw [List.dropWhile_cons, isspace_of_isdigit c hc]
      rfl
    · exact List.takeWhile_eq_self_iff.mpr hd

/-- The conversion `%d` reads the numeral of an integer of the `int` range as that
integer. -/
theorem sscanf_d_decimal (v : Int) (h0 : INT_MIN ≤ v) (h1 : v ≤ INT_MAX) :
    sscanf_d (decimal v) = some v := by
  obtain ⟨hdrop, hsign, htake⟩ :=
    scan_digits (decimal_nat v.natAbs) (decimal_nat_ne_nil _) (decimal_nat_isdigit _)
  have hempty : (decimal_nat v.natAbs).isEmpty = false := by
    cases hl : decimal_nat v.natAbs with
    | nil => exact absurd hl (decimal_nat_ne_nil _)
    | cons c rest => rfl
  unfold sscanf_d decimal
  by_cases hneg : v < 0
  · simp only [if_pos hneg, String.toList]
    have hd2 : List.dropWhile c_isspace ('-' :: decimal_nat v.natAbs)
        = '-' :: decimal_nat v.natAbs := by
      rw [List.dropWhile_cons]
      rfl
    have hs2 : scan_sign ('-' :: decimal_nat v.natAbs) = (true, decimal_nat v.natAbs) := rfl
    simp only [hd2, hs2, htake, hempty, decimal_nat_value]
    have : (-(v.natAbs : Int)) = v := by omega
    rw [this, wrap32_of_range v h0 h1]
    rfl
  · simp only [if_neg hneg, String.toList, hdrop, hsign, htake, hempty, decimal_nat_value]
    have : ((v.natAbs : Int)) = v := by omega
    rw [this, wrap32_of_range v h0 h1]
    rfl


/-! ## The parameter loop -/

/-- The seven other `if` statements leave `exchange_msg_len` alone. -/
theorem Parsed.others_keep_exchange_msg_len (env : Env) (kv : String × String) (p : Parsed) :
    (Parsed.on_debug kv p).exchange_msg_len = p.exchange_msg_len ∧
    (Parsed.on_rank kv p).exchange_msg_len = p.exchange_msg_len ∧
    (Parsed.on_x_dim kv p).exchange_msg_len = p.exchange_msg_len ∧
    (Parsed.on_y_dim kv p).exchange_msg_len = p.exchange_msg_len ∧
    (Parsed.on_latency env kv p).exchange_msg_len = p.exchange_msg_len ∧
    (Parsed.on_bandwidth env kv p).exchange_msg_len = p.exchange_msg_len ∧
    (Parsed.on_compute_time env kv p).exchange_msg_len = p.exchange_msg_len := by
  unfold Parsed.on_debug Parsed.on_rank Parsed.on_x_dim Parsed.on_y_dim Parsed.on_latency
    Parsed.on_bandwidth Parsed.on_compute_time
  refine ⟨?_, ?_, ?_, ?_, ?_, ?_, ?_⟩ <;> split <;> rfl

/-- The seven other `if` statements leave `ghost_pattern_debug` alone. -/
theorem Parsed.others_keep_ghost_pattern_debug (env : Env) (kv : String × String)
    (p : Parsed) :
    (Parsed.on_rank kv p).ghost_pattern_debug = p.ghost_pattern_debug ∧
    (Parsed.on_x_dim kv p).ghost_pattern_debug = p.ghost_pattern_debug ∧
    (Parsed.on_y_dim kv p).ghost_pattern_debug = p.ghost_pattern_debug ∧
    (Parsed.on_latency env kv p).ghost_pattern_debug = p.ghost_pattern_debug ∧
    (Parsed.on_bandwidth env kv p).ghost_pattern_debug = p.ghost_pattern_debug ∧
    (Parsed.on_compute_time env kv p).ghost_pattern_debug = p.ghost_pattern_debug ∧
    (Parsed.on_exchange_msg_len kv p).ghost_pattern_debug = p.ghost_pattern_debug := by
  unfold Parsed.on_exchange_msg_len Parsed.on_rank Parsed.on_x_dim Parsed.on_y_dim
    Parsed.on_latency Parsed.on_bandwidth Parsed.on_compute_time
  refine ⟨?_, ?_, ?_, ?_, ?_, ?_, ?_⟩ <;> split <;> rfl

/-- One loop iteration acts on `exchange_msg_len` only under the key exchange_msg_len. -/
theorem Parsed.entry_exchange_msg_len (env : Env) (p : Parsed) (kv : String × String) :
    (Parsed.entry env p kv).exchange_msg_len =
      if kv.1 = "exchange_msg_len" then (sscanf_d kv.2).getD p.exchange_msg_len
      else p.exchange_msg_len := by
  have key : ∀ q : Parsed, (Parsed.on_exchange_msg_len kv q).exchange_msg_len =
      if kv.1 = "exchange_msg_len" then (sscanf_d kv.2).getD q.exchange_msg_len
      else q.exchange_msg_len := by
    intro q
    unfold Parsed.on_exchange_msg_len
    split <;> rfl
  unfold Parsed.entry
  rw [key, (Parsed.others_keep_exchange_msg_len env kv _).2.2.2.2.2.2,
    (Parsed.others_keep_exchange_msg_len env kv _).2.2.2.2.2.1,
    (Parsed.others_keep_exchange_msg_len env kv _).2.2.2.2.1,
    (Parsed.others_keep_exchange_msg_len env kv _).2.2.2.1,
    (Parsed.others_keep_exchange_msg_len env kv _).2.2.1,
    (Parsed.others_keep_exchange_msg_len env kv _).2.1,
    (Parsed.others_keep_exchange_msg_len env kv _).1]

/-- One loop iteration acts on `ghost_pattern_debug` only under the key debug. -/
theorem Parsed.entry_ghost_pattern_debug (env : Env) (p : Parsed) (kv : String × String) :
    (Parsed.entry env p kv).ghost_pattern_debug =
      if kv.1 = "debug" then (sscanf_d kv.2).getD p.ghost_pattern_debug
      else p.ghost_pattern_debug := by
  have key : ∀ q : Parsed, (Parsed.on_debug kv q).ghost_pattern_debug =
      if kv.1 = "debug" then (sscanf_d kv.2).getD q.ghost_pattern_debug
      else q.ghost_pattern_debug := by
    intro q
    unfold Parsed.on_debug
    split <;> rfl
  unfold Parsed.entry
  rw [(Parsed.others_keep_ghost_pattern_debug env kv _).2.2.2.2.2.2,
    (Parsed.others_keep_ghost_pattern_debug env kv _).2.2.2.2.2.1,
    (Parsed.others_keep_ghost_pattern_debug env kv _).2.2.2.2.1,
    (Parsed.others_keep_ghost_pattern_debug env kv _).2.2.2.1,
    (Parsed.others_keep_ghost_pattern_debug env kv _).2.2.1,
    (Parsed.others_keep_ghost_pattern_debug env kv _).2.1,
    (Parsed.others_keep_ghost_pattern_debug env kv _).1, key]

/-- A member that only the key `k` assigns keeps its content over a loop without `k`. -/
theorem foldl_entry_absent (env : Env) (g : Parsed → Int) (k : String)
    (hg : ∀ p kv, g (Parsed.entry env p kv) = if kv.1 = k then (sscanf_d kv.2).getD (g p) else g p)
    (params : Params_t) (p : Parsed) (habs : ∀ kv ∈ params, kv.1 ≠ k) :
    g (params.foldl (Parsed.entry env) p) = g p := by
  induction params generalizing p with
  | nil => rfl
  | cons kv rest ih =>
    rw [List.foldl_cons, ih _ (fun kv2 h2 => habs kv2 (List.mem_cons_of_mem _ h2)), hg,
      if_neg (habs kv (List.mem_cons_self _ _))]

/-- A member that only the key `k` assigns holds, after a loop over a map (pairwise
different keys) with the entry `(k, s)`, the value `%d` reads from `s`. -/
theorem foldl_entry_present (env : Env) (g : Parsed → Int) (k : String)
    (hg : ∀ p kv, g (Parsed.entry env p kv) = if kv.1 = k then (sscanf_d kv.2).getD (g p) else g p)
    (params : Params_t) (p : Parsed) (s : String) (v : Int)
    (hkeys : params.Pairwise (fun a b => a.1 ≠ b.1))
    (hmem : (k, s) ∈ params) (hv : sscanf_d s = some v) :
    g (params.foldl (Parsed.entry env) p) = v := by
  induction params generalizing p with
  | nil => exact absurd hmem (List.not_mem_nil _)
  | cons kv rest ih =>
    rw [List.pairwise_cons] at hkeys
    rw [List.foldl_cons]
    rcases List.mem_cons.mp hmem with heq | hin
    · subst heq
      rw [foldl_entry_absent env g k hg rest _ (fun kv2 h2 => (hkeys.1 kv2 h2).symm), hg]
      simp [hv]
    · exact ih _ hkeys.2 hin

/-- C10: a constructed component has exchange_msg_len = 128 when the parameter map has no
key exchange_msg_len, and debug level 0 when it has no key debug; when the map (its keys
are pairwise different) has the key with the decimal numeral of an integer v of the `int`
range as value, the member equals v. -/
theorem construct_defaults_and_overrides (env : Env) (id : ComponentId_t) (params : Params_t)
    (c : Ghost_pattern) (evs : List SentEvent)
    (h : Ghost_pattern.construct env id params = .ok (c, evs)) :
    ((∀ kv ∈ params, kv.1 ≠ "exchange_msg_len") → c.exchange_msg_len = 128) ∧
    ((∀ kv ∈ params, kv.1 ≠ "debug") → c.ghost_pattern_debug = 0) ∧
    (∀ v, INT_MIN ≤ v → v ≤ INT_MAX → params.Pairwise (fun a b => a.1 ≠ b.1) →
      ("exchange_msg_len", decimal v) ∈ params → c.exchange_msg_len = v) ∧
    (∀ v, INT_MIN ≤ v → v ≤ INT_MAX → params.Pairwise (fun a b => a.1 ≠ b.1) →
      ("debug", decimal v) ∈ params → c.ghost_pattern_debug = v) := by
  obtain ⟨_, _, _, _, _, _, _, _, _, hlen, hdbg, _, _, _⟩ := construct_ok_inv h
  rw [hlen, hdbg]
  unfold Parsed.parse
  refine ⟨fun habs => ?_, fun habs => ?_, fun v h0 h1 hkeys hmem => ?_,
    fun v h0 h1 hkeys hmem => ?_⟩
  · exact foldl_entry_absent env (fun p => p.exchange_msg_len) _
      (Parsed.entry_exchange_msg_len env) params _ habs
  · exact foldl_entry_absent env (fun p => p.ghost_pattern_debug) _
      (Parsed.entry_ghost_pattern_debug env) params _ habs
  · exact foldl_entry_present env (fun p => p.exchange_msg_len) _
      (Parsed.entry_exchange_msg_len env) params _ _ v hkeys hmem (sscanf_d_decimal v h0 h1)
  · exact foldl_entry_present env (fun p => p.ghost_pattern_debug) _
      (Parsed.entry_ghost_pattern_debug env) params _ _ v hkeys hmem (sscanf_d_decimal v h0 h1)

/-- C10 at a concrete input: exchange_msg_len = 256 is given, debug is not. -/
theorem construct_defaults_and_overrides_witness :
    decimal 256 = "256" ∧
    ∃ c evs, Ghost_pattern.construct Env.sample 3
        [("bandwidth", "1000"), ("compute_time", "10"), ("exchange_msg_len", "256"),
         ("latency", "50"), ("rank", "5"), ("x_dim", "4"), ("y_dim", "4")] = .ok (c, evs) ∧
      c.exchange_msg_len = 256 ∧ c.ghost_pattern_debug = 0 :=
  ⟨by simp [decimal, decimal_nat], _, _, rfl,
   (construct_defaults_and_overrides Env.sample 3
      [("bandwidth", "1000"), ("compute_time", "10"), ("exchange_msg_len", "256"),
       ("latency", "50"), ("rank", "5"), ("x_dim", "4"), ("y_dim", "4")] _ _ rfl).2.2.1
      256 (by decide) (by decide) (by decide)
      (by rw [show decimal 256 = "256" by simp [decimal, decimal_nat]]; decide),
   (construct_defaults_and_overrides Env.sample 3
      [("bandwidth", "1000"), ("compute_time", "10"), ("exchange_msg_len", "256"),
       ("latency", "50"), ("rank", "5"), ("x_dim", "4"), ("y_dim", "4")] _ _ rfl).2.1
      (by decide)⟩

/-! ## Properties of checkpointing -/

/-- Loading what `serialize` saved of `t` into any object `t0` gives `t` with the
`common` of `t0`, whatever the two version arguments. -/
theorem serialize_load_save (t0 t : Ghost_pattern) (v w : Nat) (rest : List (String × Item)) :
    t0.serialize_load (t.serialize_save v ++ rest) w
      = some ({ t with common := t0.common }, rest) := by
  rfl

/-- Restoring the snapshot of `C` re-runs the constructor on the id and the params of `C`;
when that succeeds with the object `c0` and the events `evs`, the restore yields `C` with
the `common` of `c0`, and the events `evs`. -/
theorem restore_snapshot (env : Env) (v : Nat) (C c0 : Ghost_pattern) (evs : List SentEvent)
    (h : Ghost_pattern.construct env C.id C.params = .ok (c0, evs)) :
    restore env (snapshot v C) = .ok ({ C with common := c0.common }, evs) := by
  unfold restore snapshot load_construct_data save_construct_data
  have hload := serialize_load_save c0 C v v []
  rw [List.append_nil] at hload
  simp only [List.cons_append, List.nil_append, h, hload]

/-- C5, the snapshot of a concrete component in state WAIT: it consists of the id and
params written by `save_construct_data` and the eighteen values written by `serialize`;
no round counter is among them (the class has no such member). -/
theorem snapshot_has_no_round_counter :
    (snapshot 0 Ghost_pattern.sample).items.map Prod.fst =
      ["id", "params", "Component", "params", "my_rank", "x_dim", "y_dim", "latency",
       "bandwidth", "compute_time", "exchange_msg_len", "state", "left", "right", "up",
       "down", "rcv_cnt", "ghost_pattern_debug", "net", "tc"] := by
  decide

/-- C5, amended: for every component C on whose id and params the constructor succeeds,
restoring the snapshot of C yields a component whose rank, x_dim, y_dim, latency,
bandwidth, compute_time, exchange_msg_len, pattern state and receive count are equal to
those of C. -/
theorem restore_snapshot_fields (env : Env) (v : Nat) (C c0 : Ghost_pattern)
    (evs : List SentEvent)
    (h : Ghost_pattern.construct env C.id C.params = .ok (c0, evs)) :
    ∃ R out, restore env (snapshot v C) = .ok (R, out) ∧
      R.my_rank = C.my_rank ∧ R.x_dim = C.x_dim ∧ R.y_dim = C.y_dim ∧
      R.latency = C.latency ∧ R.bandwidth = C.bandwidth ∧
      R.compute_time = C.compute_time ∧ R.exchange_msg_len = C.exchange_msg_len ∧
      R.state = C.state ∧ R.rcv_cnt = C.rcv_cnt :=
  ⟨_, _, restore_snapshot env v C c0 evs h, rfl, rfl, rfl, rfl, rfl, rfl, rfl, rfl, rfl⟩

/-- C5, amended, at a concrete input: the component `Ghost_pattern.sample` in state WAIT
with two messages received. -/
theorem restore_snapshot_fields_witness :
    ∃ R out, restore Env.sample (snapshot 0 Ghost_pattern.sample) = .ok (R, out) ∧
      R.my_rank = 5 ∧ R.x_dim = 4 ∧ R.y_dim = 4 ∧ R.latency = 50 ∧ R.bandwidth = 1000 ∧
      R.compute_time = 10 ∧ R.exchange_msg_len = 128 ∧ R.state = state_t.WAIT ∧
      R.rcv_cnt = 2 :=
  restore_snapshot_fields Env.sample 0 Ghost_pattern.sample
    { Ghost_pattern.sample with state := state_t.INIT, rcv_cnt := 0 }
    [⟨5, pattern_event_t.START, 0⟩] rfl

/-- C6, a blob written with class version 1 and a blob written with class version 0 of
the same component: the versions differ, both restores succeed and give the same
component. -/
theorem restore_accepts_other_version :
    (snapshot 1 Ghost_pattern.sample).version ≠ (snapshot 0 Ghost_pattern.sample).version ∧
    restore Env.sample (snapshot 1 Ghost_pattern.sample)
      = .ok (Ghost_pattern.sample, [⟨5, pattern_event_t.START, 0⟩]) ∧
    restore Env.sample (snapshot 0 Ghost_pattern.sample)
      = .ok (Ghost_pattern.sample, [⟨5, pattern_event_t.START, 0⟩]) :=
  ⟨by decide, rfl, rfl⟩

/-- C6, amended: the restore code of `Ghost_pattern` does not look at the version of the
blob; replacing the version by any other leaves the result of the restore unchanged. -/
theorem restore_ignores_version (env : Env) (blob : Archive) (v : Nat) :
    restore env { blob with version := v } = restore env blob := by
  rfl

/-- For every component C on whose id and params the constructor succeeds, in any pattern
state, the restore of the snapshot of C sends exactly the event the constructor sends, a
zero-delay START event addressed to the rank given by the params, and yields a component
equal to C in every member that `serialize` handles. -/
theorem restore_snapshot_events (env : Env) (v : Nat) (C c0 : Ghost_pattern)
    (evs : List SentEvent)
    (h : Ghost_pattern.construct env C.id C.params = .ok (c0, evs)) :
    restore env (snapshot v C)
      = .ok ({ C with common := c0.common },
          [⟨(Parsed.parse env C.params).my_rank, pattern_event_t.START, 0⟩]) := by
  obtain ⟨_, _, _, _, _, _, _, _, _, _, _, _, _, hev⟩ := construct_ok_inv h
  rw [restore_snapshot env v C c0 evs h, hev]

/-- C7, evaluated on a component of the 4 x 4 torus in state WAIT with two messages
received. The restore of its snapshot yields the component again, but the constructor that
`load_construct_data` runs sends a second START event to rank 5, so the events sent during
restore are not empty. Under the same later inputs the two differ in the handler of
section 4.2: the original, given the two remaining EXCHANGE messages, goes on to COMPUTE;
the restored component first meets the START event it sent to itself, which is a protocol
violation in WAIT. So it does not hold that every restore sends no event. -/
theorem restore_sends_start :
    Ghost_pattern.sample.state = state_t.WAIT ∧
    restore Env.sample (snapshot 0 Ghost_pattern.sample)
      = .ok (Ghost_pattern.sample, [⟨5, pattern_event_t.START, 0⟩]) ∧
    (∃ m out, Ghost_pattern.run (exchanges [6, 1] 128) ⟨Ghost_pattern.sample, 0, none⟩
        = .ok (m, out) ∧ m.comp.state = state_t.COMPUTE) ∧
    Ghost_pattern.run
        (Delivery.message ⟨5, pattern_event_t.START, 0⟩ :: exchanges [6, 1] 128)
        ⟨Ghost_pattern.sample, 0, none⟩
      = .error ProtocolViolation.unexpected_event ∧
    ¬ (∀ (env : Env) (v : Nat) (C R : Ghost_pattern) (out : List SentEvent),
        restore env (snapshot v C) = .ok (R, out) → out = []) := by
  refine ⟨rfl, rfl, ⟨_, _, rfl, rfl⟩, rfl, fun h => ?_⟩
  have h2 := h Env.sample 0 Ghost_pattern.sample Ghost_pattern.sample
    [⟨5, pattern_event_t.START, 0⟩] rfl
  exact absurd h2 (by simp)

/-! ## Range of the computed neighbours -/

/-- C12, evaluated on the 2 x 3 torus (ranks 0 to 5): the constructor computes up = 6 for
rank 0, up = 7 for rank 1 and down = 7 for rank 3, none of which is a rank of the run. So
the computed neighbours do not lie in [0, x_dim*y_dim) for every x_dim > 0, y_dim > 0 and
rank in range. -/
theorem neighbors_out_of_range_2x3 :
    (Neighbors.up 0 2 3 = 6 ∧ Neighbors.up 1 2 3 = 7 ∧ Neighbors.down 3 2 3 = 7) ∧
    ¬ (∀ x_dim y_dim r : Int, 0 < x_dim → 0 < y_dim → 0 ≤ r → r < x_dim * y_dim →
        (0 ≤ Neighbors.left r x_dim y_dim ∧ Neighbors.left r x_dim y_dim < x_dim * y_dim) ∧
        (0 ≤ Neighbors.right r x_dim y_dim ∧ Neighbors.right r x_dim y_dim < x_dim * y_dim) ∧
        (0 ≤ Neighbors.up r x_dim y_dim ∧ Neighbors.up r x_dim y_dim < x_dim * y_dim) ∧
        (0 ≤ Neighbors.down r x_dim y_dim ∧
          Neighbors.down r x_dim y_dim < x_dim * y_dim)) := by
  refine ⟨by decide, fun h => ?_⟩
  have h2 := (h 2 3 0 (by decide) (by decide) (by decide) (by decide)).2.2.1.2
  revert h2
  decide

/-- C15, the 50000 x 50000 torus at rank 2147483647 (a rank below 50000 * 50000): the
product `((myY + 1) % y_dim) * y_dim` = 42950 * 50000 leaves the `int` range, and the
down neighbour comes out negative. -/
theorem square_neighbors_overflow :
    (0 : Int) < 50000 ∧ (0 : Int) ≤ 2147483647 ∧ (2147483647 : Int) < 50000 * 50000 ∧
    Neighbors.myY 2147483647 50000 = 42949 ∧
    Neighbors.down 2147483647 50000 50000 = -2147433649 ∧
    ¬ (0 ≤ Neighbors.down 2147483647 50000 50000) := by
  decide

/-- C15, amended: on every square torus (x_dim = y_dim = n > 0) whose rank count n * n is
an `int`, and for every rank r in [0, n*n), the neighbours computed by the constructor lie
in [0, n*n), right and left are inverse to each other and up and down are inverse to each
other. -/
theorem square_torus_neighbors (n r : Int) (hn : 0 < n) (hmax : n * n ≤ INT_MAX)
    (h0 : 0 ≤ r) (h1 : r < n * n) :
    ((0 ≤ Neighbors.right r n n ∧ Neighbors.right r n n < n * n) ∧
     (0 ≤ Neighbors.left r n n ∧ Neighbors.left r n n < n * n) ∧
     (0 ≤ Neighbors.down r n n ∧ Neighbors.down r n n < n * n) ∧
     (0 ≤ Neighbors.up r n n ∧ Neighbors.up r n n < n * n)) ∧
    Neighbors.right (Neighbors.left r n n) n n = r ∧
    Neighbors.left (Neighbors.right r n n) n n = r ∧
    Neighbors.up (Neighbors.down r n n) n n = r ∧
    Neighbors.down (Neighbors.up r n n) n n = r := by
  obtain ⟨hlr, hrl, hud, hdu⟩ := square_neighbors_reciprocal r n hn hmax h0 h1
  exact ⟨square_neighbors_range r n hn hmax h0 h1, hrl, hlr, hud, hdu⟩

/-- C15, amended, at a concrete input: rank 5 of the 4 x 4 torus. -/
theorem square_torus_neighbors_witness :
    Neighbors.right (Neighbors.left 5 4 4) 4 4 = 5 ∧
    Neighbors.left (Neighbors.right 5 4 4) 4 4 = 5 ∧
    Neighbors.up (Neighbors.down 5 4 4) 4 4 = 5 ∧
    Neighbors.down (Neighbors.up 5 4 4) 4 4 = 5 :=
  (square_torus_neighbors 4 5 (by decide) (by decide) (by decide) (by decide)).2

/-! ## Properties of `DenseGroup` -/

/-- C13, evaluated. With the ranges [0, 4) and [10, 14) registered, `getMapping` returns
-1 below the first range, but in the gap it returns -1 only for 4 and then 0 for 5 and 4
for 9, and at 14 and above it reads past the last entry of the map; with the single range
[0, 4) registered it reads past the last entry for 4. -/
theorem getMapping_outside_ranges :
    (DenseGroup.build [(0, 100, 4), (10, 200, 4)]).m_map
      = [(0, 100), (4, -1), (10, 200), (14, -1)] ∧
    (DenseGroup.build [(0, 100, 4), (10, 200, 4)]).getMapping (-3) = some (-1) ∧
    (DenseGroup.build [(0, 100, 4), (10, 200, 4)]).getMapping 4 = some (-1) ∧
    (DenseGroup.build [(0, 100, 4), (10, 200, 4)]).getMapping 5 = some 0 ∧
    (DenseGroup.build [(0, 100, 4), (10, 200, 4)]).getMapping 9 = some 4 ∧
    (DenseGroup.build [(0, 100, 4), (10, 200, 4)]).getMapping 14 = none ∧
    (DenseGroup.build [(0, 100, 4), (10, 200, 4)]).getMapping 20 = none ∧
    (DenseGroup.build [(0, 100, 4)]).getMapping 4 = none := by
  decide

/-- After `m[k] = v` the key `k` holds `v` and every other key holds what it held. -/
theorem IntMap.find_assign (m : IntMap) (k v k2 : Int) :
    IntMap.find (IntMap.assign m k v) k2 = if k2 = k then some v else IntMap.find m k2 := by
  induction m with
  | nil =>
    simp only [IntMap.assign, IntMap.find]
    by_cases h : k2 = k
    · simp [h]
    · simp [h, Ne.symm h]
  | cons e rest ih =>
    simp only [IntMap.assign]
    by_cases h1 : k < e.1
    · simp only [if_pos h1, IntMap.find]
      by_cases h : k2 = k
      · simp [h]
      · simp [h, Ne.symm h]
    · by_cases h2 : k = e.1
      · simp only [if_neg h1, if_pos h2, IntMap.find]
        by_cases h : k2 = k
        · simp [h]
        · have h3 : ¬ e.1 = k2 := fun h4 => h (by rw [← h4, h2])
          simp [h, Ne.symm h, h3]
      · simp only [if_neg h1, if_neg h2, IntMap.find, ih]
        by_cases h : k2 = k
        · have h3 : ¬ e.1 = k2 := fun h4 => h2 (by rw [h4, h])
          simp [h, h3]
          intro h5
          exact absurd h5.symm h2
        · simp [h]

/-- An entry of `m[k] = v` is the new one or an entry of `m`. -/
theorem IntMap.mem_assign (m : IntMap) (k v : Int) (b : Int × Int)
    (hb : b ∈ IntMap.assign m k v) : b = (k, v) ∨ b ∈ m := by
  induction m with
  | nil =>
    simp only [IntMap.assign, List.mem_singleton] at hb
    exact Or.inl hb
  | cons e rest ih =>
    simp only [IntMap.assign] at hb
    split_ifs at hb with h1 h2
    · rcases List.mem_cons.mp hb with h | h
      · exact Or.inl h
      · exact Or.inr h
    · rcases List.mem_cons.mp hb with h | h
      · exact Or.inl h
      · exact Or.inr (List.mem_cons_of_mem _ h)
    · rcases List.mem_cons.mp hb with h | h
      · exact Or.inr (by rw [h]; exact List.mem_cons_self _ _)
      · rcases ih h with h3 | h3
        · exact Or.inl h3
        · exact Or.inr (List.mem_cons_of_mem _ h3)

/-- The assignment `m[k] = v` keeps the keys in ascending order. -/
theorem IntMap.sorted_assign (m : IntMap) (k v : Int) (hm : IntMap.Sorted m) :
    IntMap.Sorted (IntMap.assign m k v) := by
  unfold IntMap.Sorted at *
  induction m with
  | nil => simp [IntMap.assign]
  | cons e rest ih =>
    rw [List.pairwise_cons] at hm
    simp only [IntMap.assign]
    split_ifs with h1 h2
    · refine List.pairwise_cons.mpr ⟨?_, List.pairwise_cons.mpr hm⟩
      intro b hb
      rcases List.mem_cons.mp hb with h | h
      · rw [h]; exact h1
      · exact lt_trans h1 (hm.1 b h)
    · refine List.pairwise_cons.mpr ⟨?_, hm.2⟩
      intro b hb
      have := hm.1 b hb
      simp only
      omega
    · refine List.pairwise_cons.mpr ⟨?_, ih hm.2⟩
      intro b hb
      rcases IntMap.mem_assign rest k v b hb with h | h
      · rw [h]
        simp only
        omega
      · exact hm.1 b h

/-- A key that holds a value belongs to an entry of the map. -/
theorem IntMap.find_mem (m : IntMap) (k w : Int) (h : IntMap.find m k = some w) :
    (k, w) ∈ m := by
  induction m with
  | nil => simp [IntMap.find] at h
  | cons e rest ih =>
    simp only [IntMap.find] at h
    split_ifs at h with h1
    · have h2 : e = (k, w) := by
        cases e
        simp only [Option.some.injEq] at h
        simp only at h1
        rw [h1, h]
      rw [h2]
      exact List.mem_cons_self _ _
    · exact List.mem_cons_of_mem _ (ih h)

/-- The lookup loop on a well-formed map: when `a` is the greatest key not above `q` and
some key lies above `q`, the loop stops at `a` without reading past the last entry and
returns the value of `a` plus the offset of `q`. -/
theorem getMapping_loop_hit (m : IntMap) (a v b q : Int) (hm : IntMap.Sorted m)
    (ha : IntMap.find m a = some v) (hb : IntMap.find m b ≠ none)
    (haq : a ≤ q) (hqb : q < b)
    (hgap : ∀ k, IntMap.find m k ≠ none → ¬ (a < k ∧ k ≤ q)) :
    DenseGroup.getMapping_loop m q = some (c_add v (c_sub q a)) := by
  induction m with
  | nil => simp [IntMap.find] at ha
  | cons e rest ih =>
    unfold IntMap.Sorted at hm
    rw [List.pairwise_cons] at hm
    cases rest with
    | nil =>
      exfalso
      simp only [IntMap.find] at ha hb
      split_ifs at ha with h1
      split_ifs at hb with h2
      · omega
      · exact hb rfl
    | cons n rest2 =>
      by_cases he : e.1 = a
      · have hv : e.2 = v := by
          simp only [IntMap.find, if_pos he, Option.some.injEq] at ha
          exact ha
        have hn : q < n.1 := by
          by_contra hcon
          have hkey : IntMap.find (e :: n :: rest2) n.1 ≠ none := by
            have hlt := hm.1 n (List.mem_cons_self _ _)
            simp [IntMap.find, ne_of_lt hlt]
          exact hgap n.1 hkey ⟨by rw [← he]; exact hm.1 n (List.mem_cons_self _ _), by omega⟩
        unfold DenseGroup.getMapping_loop
        rw [if_pos ⟨by omega, hn⟩, hv, he]
      · have ha2 : IntMap.find (n :: rest2) a = some v := by
          simp only [IntMap.find, if_neg he] at ha
          simpa [IntMap.find] using ha
        have hea : e.1 < a := hm.1 _ (IntMap.find_mem _ _ _ ha2)
        have hna : n.1 ≤ a := by
          rcases List.mem_cons.mp (IntMap.find_mem _ _ _ ha2) with h | h
          · rw [← h]
          · have hs := hm.2
            rw [List.pairwise_cons] at hs
            exact le_of_lt (hs.1 _ h)
        have hb2 : IntMap.find (n :: rest2) b ≠ none := by
          have hne : ¬ e.1 = b := by omega
          simpa [IntMap.find, hne] using hb
        have hgap2 : ∀ k, IntMap.find (n :: rest2) k ≠ none → ¬ (a < k ∧ k ≤ q) := by
          intro k hk hak
          apply hgap k _ hak
          have hne : ¬ e.1 = k := by omega
          simpa [IntMap.find, hne] using hk
        unfold DenseGroup.getMapping_loop
        rw [if_neg (by omega)]
        exact ih hm.2 ha2 hb2 hgap2

/-- What the keys hold after `initMapping(src, dst, range)`. -/
theorem initMapping_find (g : DenseGroup) (src dst range key : Int) :
    IntMap.find (g.initMapping src dst range).m_map key =
      if key = c_add src range then some (-1)
      else if key = src then some dst else IntMap.find g.m_map key := by
  unfold DenseGroup.initMapping
  simp only [IntMap.find_assign]

/-- Calls of `initMapping` keep the keys in ascending order. -/
theorem initMappings_sorted (calls : List (Int × Int × Int)) (g : DenseGroup)
    (hg : IntMap.Sorted g.m_map) :
    IntMap.Sorted (calls.foldl (fun g c => g.initMapping c.1 c.2.1 c.2.2) g).m_map := by
  induction calls generalizing g with
  | nil => exact hg
  | cons c rest ih =>
    rw [List.foldl_cons]
    apply ih
    unfold DenseGroup.initMapping
    exact IntMap.sorted_assign _ _ _ (IntMap.sorted_assign _ _ _ hg)

/-- Calls of `initMapping` that write neither `key` as a start nor as an end leave what
`key` holds. -/
theorem initMappings_find_other (calls : List (Int × Int × Int)) (g : DenseGroup) (key : Int)
    (h : ∀ c ∈ calls, c.1 ≠ key ∧ c_add c.1 c.2.2 ≠ key) :
    IntMap.find (calls.foldl (fun g c => g.initMapping c.1 c.2.1 c.2.2) g).m_map key
      = IntMap.find g.m_map key := by
  induction calls generalizing g with
  | nil => rfl
  | cons c rest ih =>
    rw [List.foldl_cons, ih _ (fun c2 h2 => h c2 (List.mem_cons_of_mem _ h2)),
      initMapping_find]
    obtain ⟨h1, h2⟩ := h c (List.mem_cons_self _ _)
    rw [if_neg (Ne.symm h2), if_neg (Ne.symm h1)]

/-- Calls of `initMapping` never remove a key. -/
theorem initMappings_find_keep (calls : List (Int × Int × Int)) (g : DenseGroup) (key : Int)
    (h : IntMap.find g.m_map key ≠ none) :
    IntMap.find (calls.foldl (fun g c => g.initMapping c.1 c.2.1 c.2.2) g).m_map key
      ≠ none := by
  induction calls generalizing g with
  | nil => exact h
  | cons c rest ih =>
    rw [List.foldl_cons]
    apply ih
    rw [initMapping_find]
    split_ifs
    · simp
    · simp
    · exact h

/-- Every key after calls of `initMapping` was a key before or is the start or the end
written by one of the calls. -/
theorem initMappings_keys (calls : List (Int × Int × Int)) (g : DenseGroup) (key : Int)
    (h : IntMap.find (calls.foldl (fun g c => g.initMapping c.1 c.2.1 c.2.2) g).m_map key
      ≠ none) :
    IntMap.find g.m_map key ≠ none ∨
      ∃ c ∈ calls, key = c.1 ∨ key = c_add c.1 c.2.2 := by
  induction calls generalizing g with
  | nil => exact Or.inl h
  | cons c rest ih =>
    rw [List.foldl_cons] at h
    rcases ih _ h with h1 | ⟨c2, hc2, h2⟩
    · rw [initMapping_find] at h1
      split_ifs at h1 with h3 h4
      · exact Or.inr ⟨c, List.mem_cons_self _ _, Or.inr h3⟩
      · exact Or.inr ⟨c, List.mem_cons_self _ _, Or.inl h4⟩
      · exact Or.inl h1
    · exact Or.inr ⟨c2, List.mem_cons_of_mem _ hc2, h2⟩

/-- C14, amended: for a group built from an empty map by `initMapping(from_k, to_k,
range_k)` calls with range_k > 0, whose source ranges [from_k, from_k + range_k) and
target ranges [to_k, to_k + range_k) lie in the `int` range with from_k + range_k an
`int`, whose source ranges are pairwise disjoint, and where no call's range ends at the
start of a range registered before it, `getMapping(from_k + i)` = to_k + i for every
registered range k and every 0 <= i < range_k. -/
theorem getMapping_registered (calls : List (Int × Int × Int))
    (hrange : ∀ c ∈ calls, 0 < c.2.2 ∧ c.2.2 ≤ INT_MAX ∧ INT_MIN ≤ c.1 ∧
      c.1 + c.2.2 ≤ INT_MAX ∧ INT_MIN ≤ c.2.1 ∧ c.2.1 + c.2.2 ≤ INT_MAX + 1)
    (hdisj : calls.Pairwise (fun a b => a.1 + a.2.2 ≤ b.1 ∨ b.1 + b.2.2 ≤ a.1))
    (horder : calls.Pairwise (fun a b => b.1 + b.2.2 ≠ a.1))
    (c : Int × Int × Int) (hc : c ∈ calls) (i : Int) (hi0 : 0 ≤ i) (hi1 : i < c.2.2) :
    (DenseGroup.build calls).getMapping (c.1 + i) = some (c.2.1 + i) := by
  have hexact : ∀ c2 ∈ calls, c_add c2.1 c2.2.2 = c2.1 + c2.2.2 := by
    intro c2 hc2
    obtain ⟨h1, _, h2, h3, _, _⟩ := hrange c2 hc2
    exact wrap32_of_range _ (by omega) h3
  obtain ⟨hr, hr1, hs0, hs1, ht0, ht1⟩ := hrange c hc
  obtain ⟨pre, later, hsplit⟩ := List.append_of_mem hc
  have hmem : ∀ c2, c2 ∈ calls ↔ c2 ∈ pre ∨ c2 = c ∨ c2 ∈ later := by
    intro c2
    rw [hsplit, List.mem_append, List.mem_cons]
  rw [hsplit, List.pairwise_append, List.pairwise_cons] at hdisj horder
  -- the other calls are disjoint from `c`
  have hother : ∀ c2, c2 ∈ pre ∨ c2 ∈ later →
      c2.1 + c2.2.2 ≤ c.1 ∨ c.1 + c.2.2 ≤ c2.1 := by
    intro c2 h
    rcases h with h | h
    · exact hdisj.2.2 c2 h c (List.mem_cons_self _ _)
    · rcases hdisj.2.1.1 c2 h with h2 | h2
      · exact Or.inr h2
      · exact Or.inl h2
  unfold DenseGroup.getMapping DenseGroup.build
  rw [hsplit, List.foldl_append, List.foldl_cons]
  have hsorted := initMappings_sorted (pre ++ c :: later) DenseGroup.empty
    (by unfold IntMap.Sorted DenseGroup.empty; exact List.Pairwise.nil)
  rw [List.foldl_append, List.foldl_cons] at hsorted
  -- the start of `c` holds its target
  have hstart : IntMap.find (later.foldl (fun g c => g.initMapping c.1 c.2.1 c.2.2)
      ((pre.foldl (fun g c => g.initMapping c.1 c.2.1 c.2.2) DenseGroup.empty).initMapping
        c.1 c.2.1 c.2.2)).m_map c.1 = some c.2.1 := by
    rw [initMappings_find_other, initMapping_find, hexact c hc, if_neg (by omega), if_pos rfl]
    intro c2 hc2
    have hpos := (hrange c2 ((hmem c2).mpr (Or.inr (Or.inr hc2)))).1
    rw [hexact c2 ((hmem c2).mpr (Or.inr (Or.inr hc2)))]
    refine ⟨?_, horder.2.1.1 c2 hc2⟩
    rcases hother c2 (Or.inr hc2) with h | h <;> omega
  -- the end of `c` is a key
  have hend : IntMap.find (later.foldl (fun g c => g.initMapping c.1 c.2.1 c.2.2)
      ((pre.foldl (fun g c => g.initMapping c.1 c.2.1 c.2.2) DenseGroup.empty).initMapping
        c.1 c.2.1 c.2.2)).m_map (c.1 + c.2.2) ≠ none := by
    apply initMappings_find_keep
    rw [initMapping_find, hexact c hc, if_pos rfl]
    simp
  -- no key lies between the start of `c` and the query
  have hgap : ∀ k, IntMap.find (later.foldl (fun g c => g.initMapping c.1 c.2.1 c.2.2)
      ((pre.foldl (fun g c => g.initMapping c.1 c.2.1 c.2.2) DenseGroup.empty).initMapping
        c.1 c.2.1 c.2.2)).m_map k ≠ none → ¬ (c.1 < k ∧ k ≤ c.1 + i) := by
    intro k hk hbetween
    have hk2 : IntMap.find ((pre ++ c :: later).foldl
        (fun g c => g.initMapping c.1 c.2.1 c.2.2) DenseGroup.empty).m_map k ≠ none := by
      rw [List.foldl_append, List.foldl_cons]
      exact hk
    rcases initMappings_keys _ _ k hk2 with h | ⟨c2, hc2, h⟩
    · exact h rfl
    · rw [← hsplit] at hc2
      rw [hexact c2 hc2] at h
      have hpos := (hrange c2 hc2).1
      rcases (hmem c2).mp hc2 with h2 | h2 | h2
      · rcases hother c2 (Or.inl h2) with h3 | h3 <;> rcases h with h | h <;> omega
      · rw [h2] at h
        rcases h with h | h <;> omega
      · rcases hother c2 (Or.inr h2) with h3 | h3 <;> rcases h with h | h <;> omega
  rw [getMapping_loop_hit _ c.1 c.2.1 (c.1 + c.2.2) (c.1 + i) hsorted hstart hend
    (by omega) (by omega) hgap]
  have hsub : c_sub (c.1 + i) c.1 = i := by
    unfold c_sub
    rw [show c.1 + i - c.1 = i by ring]
    exact wrap32_of_range _ (by unfold INT_MIN; omega) (by omega)
  rw [hsub]
  unfold c_add
  rw [wrap32_of_range _ (by omega) (by omega)]

/-- C14 at a concrete input: the ranges [0, 4), [4, 8) and [20, 22) registered in
ascending order; 5 is mapped to 201. -/
theorem getMapping_registered_witness :
    (DenseGroup.build [(0, 100, 4), (4, 200, 4), (20, 50, 2)]).getMapping (4 + 1)
      = some (200 + 1) :=
  getMapping_registered [(0, 100, 4), (4, 200, 4), (20, 50, 2)] (by decide) (by decide)
    (by decide) (4, 200, 4) (by decide) 1 (by decide) (by decide)

/-- C14, three groups built from disjoint ranges of positive length. Registering [4, 8)
and then [0, 4): the end marker of the second call overwrites the start of the first, and
`getMapping(4)` is -1 and `getMapping(5)` is 0 where 100 and 101 were registered.
Registering [2147483647, 2147483648): the end marker falls on the key -2147483648 and the
lookup of 2147483647 reads past the last entry. Registering [0, 2) with target
2147483647: `getMapping(1)` is -2147483648, not 2147483648. -/
theorem getMapping_registered_fails :
    (DenseGroup.build [(4, 100, 4), (0, 50, 4)]).m_map = [(0, 50), (4, -1), (8, -1)] ∧
    (DenseGroup.build [(4, 100, 4), (0, 50, 4)]).getMapping (4 + 0) = some (-1) ∧
    (DenseGroup.build [(4, 100, 4), (0, 50, 4)]).getMapping (4 + 1) = some 0 ∧
    (DenseGroup.build [(2147483647, 7, 1)]).m_map = [(-2147483648, -1), (2147483647, 7)] ∧
    (DenseGroup.build [(2147483647, 7, 1)]).getMapping (2147483647 + 0) = none ∧
    (DenseGroup.build [(0, 2147483647, 2)]).getMapping (0 + 1) = some (-2147483648) := by
  decide

/-- Below every key the lookup returns -1 and does not read past the last entry. -/
theorem getMapping_loop_below (m : IntMap) (q : Int) (h : ∀ e ∈ m, q < e.1) :
    DenseGroup.getMapping_loop m q = some (-1) := by
  induction m with
  | nil => rfl
  | cons e rest ih =>
    have he := h e (List.mem_cons_self _ _)
    cases rest with
    | nil =>
      unfold DenseGroup.getMapping_loop
      rw [if_neg (by omega)]
    | cons n rest2 =>
      unfold DenseGroup.getMapping_loop
      rw [if_neg (by omega)]
      exact ih (fun e2 h2 => h e2 (List.mem_cons_of_mem _ h2))

/-! ## Properties of `ManualMVMComputeArray` -/

/-- An invariant that every iteration of a counted loop carries over holds at its end,
and the loop does not fail. -/
theorem for_int_invariant {σ : Type} (n : Nat) (body : Nat → σ → Option σ) (s : σ)
    (hn : (n : Int) ≤ INT_MAX) (P : Nat → σ → Prop) (h0 : P 0 s)
    (hstep : ∀ i t, i < n → P i t → ∃ t2, body i t = some t2 ∧ P (i + 1) t2) :
    ∃ t, for_int n body s = some t ∧ P n t := by
  have key : ∀ k, k ≤ n →
      ∃ t, (List.range k).foldlM (fun t i => body i t) s = some t ∧ P k t := by
    intro k
    induction k with
    | zero => exact fun _ => ⟨s, rfl, h0⟩
    | succ k ih =>
      intro hk
      obtain ⟨t, ht, hP⟩ := ih (by omega)
      obtain ⟨t2, ht2, hP2⟩ := hstep k t (by omega) hP
      refine ⟨t2, ?_, hP2⟩
      rw [List.range_succ, List.foldlM_append, ht]
      simp [ht2]
  unfold for_int
  rw [if_neg (by omega)]
  exact key n (le_refl n)

/-- Adding a product in 64-bit arithmetic to a reduced sum gives the reduced sum. -/
theorem wrap64_add_wrap64 (s p : Int) : wrap64 (wrap64 s + wrap64 p) = wrap64 (s + p) := by
  unfold wrap64
  omega

/-- Reading the entry that was just assigned. -/
theorem vec_set_get (vec : List Int) (i : Nat) (x : Int) (hi : i < vec.length) :
    ∃ t, vec_set vec i x = some t ∧ t.length = vec.length ∧ t[i]? = some x ∧
      ∀ j, j ≠ i → t[j]? = vec[j]? := by
  refine ⟨vec.set i x, ?_, ?_, ?_, ?_⟩
  · unfold vec_set
    rw [if_pos hi]
  · exact List.length_set _ _ _
  · simp [List.getElem?_set, hi]
  · intro j hj
    simp [List.getElem?_set, Ne.symm hj]

/-- An index of a vector reads the entry that `getD` names. -/
theorem getElem_eq_some_getD (l : List Int) (i : Nat) (hi : i < l.length) :
    l[i]? = some (l.getD i 0) := by
  rw [List.getD_eq_getElem?_getD, List.getElem?_eq_getElem hi]
  rfl

/-- Lines 142-144: the first loop sets the first `n` outputs to 0 and leaves the rest. -/
theorem clear_loop (n : Nat) (out : List Int) (hn : (n : Int) ≤ INT_MAX)
    (hlen : n ≤ out.length) :
    ∃ t, for_int n (fun i o => vec_set o i 0) out = some t ∧ t.length = out.length ∧
      (∀ j, j < n → t[j]? = some 0) ∧ (∀ j, n ≤ j → t[j]? = out[j]?) := by
  apply for_int_invariant n _ out hn
    (fun k t => t.length = out.length ∧ (∀ j, j < k → t[j]? = some 0) ∧
      (∀ j, k ≤ j → t[j]? = out[j]?))
  · exact ⟨rfl, fun j hj => absurd hj (Nat.not_lt_zero j), fun j _ => rfl⟩
  · intro i t hi ⟨hl, hz, hr⟩
    obtain ⟨t2, ht2, hl2, hget, hoth⟩ := vec_set_get t i 0 (by omega)
    refine ⟨t2, ht2, by omega, ?_, ?_⟩
    · intro j hj
      by_cases hji : j = i
      · rw [hji]; exact hget
      · rw [hoth j hji]; exact hz j (by omega)
    · intro j hj
      rw [hoth j (by omega)]
      exact hr j (by omega)

/-- Lines 148-150: the inner loop, entered with `outVec[row]` equal to 0, leaves there the
64-bit reduction of the product of the row with the input vector, and touches nothing
else. -/
theorem row_loop (matrix inVec : List Int) (arrayInSize row : Nat) (out : List Int)
    (hn : (arrayInSize : Int) ≤ INT_MAX) (hin : arrayInSize ≤ inVec.length)
    (hmat : row * arrayInSize + arrayInSize ≤ matrix.length)
    (hrow : row < out.length) (hzero : out[row]? = some 0) :
    ∃ t, for_int arrayInSize (fun col o =>
        ManualMVMComputeArray.mac matrix inVec arrayInSize row col o) out = some t ∧
      t.length = out.length ∧
      t[row]? = some (wrap64 (mvm_row matrix inVec arrayInSize row)) ∧
      ∀ j, j ≠ row → t[j]? = out[j]? := by
  unfold mvm_row
  apply for_int_invariant arrayInSize _ out hn
    (fun c t => t.length = out.length ∧
      t[row]? = some (wrap64 (∑ col in Finset.range c,
        (matrix.getD (row * arrayInSize + col) 0) * (inVec.getD col 0))) ∧
      ∀ j, j ≠ row → t[j]? = out[j]?)
  · refine ⟨rfl, ?_, fun j _ => rfl⟩
    rw [hzero, Finset.sum_range_zero]
    rfl
  · intro c t hc ⟨hl, hacc, hoth⟩
    obtain ⟨t2, ht2, hl2, hget, hoth2⟩ := vec_set_get t row
      (wrap64 (wrap64 (∑ col in Finset.range c,
          (matrix.getD (row * arrayInSize + col) 0) * (inVec.getD col 0))
        + wrap64 (matrix.getD (row * arrayInSize + c) 0 * inVec.getD c 0))) (by omega)
    refine ⟨t2, ?_, by omega, ?_, ?_⟩
    · unfold ManualMVMComputeArray.mac
      rw [getElem_eq_some_getD matrix _ (by omega), getElem_eq_some_getD inVec _ (by omega),
        hacc]
      exact ht2
    · rw [hget, wrap64_add_wrap64, Finset.sum_range_succ]
    · intro j hj
      rw [hoth2 j hj]
      exact hoth j hj

/-- Lines 147-152: the outer loop, entered with the first `arrayOutSize` outputs equal to
0, leaves in each of them the 64-bit reduction of the product of its row with the input
vector, and leaves the other outputs. -/
theorem rows_loop (matrix inVec : List Int) (arrayInSize arrayOutSize : Nat)
    (out : List Int) (hno : (arrayOutSize : Int) ≤ INT_MAX)
    (hni : (arrayInSize : Int) ≤ INT_MAX) (hin : arrayInSize ≤ inVec.length)
    (hmat : arrayOutSize * arrayInSize ≤ matrix.length) (hout : arrayOutSize ≤ out.length)
    (hzero : ∀ j, j < arrayOutSize → out[j]? = some 0) :
    ∃ t, for_int arrayOutSize (fun row o =>
        for_int arrayInSize (fun col o2 =>
          ManualMVMComputeArray.mac matrix inVec arrayInSize row col o2) o) out = some t ∧
      t.length = out.length ∧
      (∀ j, j < arrayOutSize →
        t[j]? = some (wrap64 (mvm_row matrix inVec arrayInSize j))) ∧
      ∀ j, arrayOutSize ≤ j → t[j]? = out[j]? := by
  have h := for_int_invariant arrayOutSize (fun row o =>
        for_int arrayInSize (fun col o2 =>
          ManualMVMComputeArray.mac matrix inVec arrayInSize row col o2) o) out hno
    (fun r t => t.length = out.length ∧
      (∀ j, j < r → t[j]? = some (wrap64 (mvm_row matrix inVec arrayInSize j))) ∧
      (∀ j, r ≤ j → t[j]? = out[j]?))
    ⟨rfl, fun j hj => absurd hj (Nat.not_lt_zero j), fun j _ => rfl⟩
    (by
      intro r t hr ⟨hl, hdone, hrest⟩
      have hm : r * arrayInSize + arrayInSize ≤ matrix.length := by
        have h1 : (r + 1) * arrayInSize ≤ arrayOutSize * arrayInSize :=
          Nat.mul_le_mul_right _ (by omega)
        rw [Nat.add_mul, Nat.one_mul] at h1
        omega
      obtain ⟨t2, ht2, hl2, hget, hoth⟩ := row_loop matrix inVec arrayInSize r t hni hin hm
        (by omega) (by rw [hrest r (le_refl r)]; exact hzero r hr)
      refine ⟨t2, ht2, by omega, ?_, ?_⟩
      · intro j hj
        by_cases hjr : j = r
        · rw [hjr]; exact hget
        · rw [hoth j hjr]; exact hdone j (by omega)
      · intro j hj
        rw [hoth j (by omega)]
        exact hrest j (by omega))
  obtain ⟨t, ht, hl, hdone, hrest⟩ := h
  exact ⟨t, ht, hl, hdone, fun j hj => hrest j hj⟩

/-- C16, amended: for sizes `arrayInSize` and `arrayOutSize` of at most INT_MAX (the range
of the `int` loop counters), an input vector v of length at least `arrayInSize`, a
row-major matrix M of length at least `arrayOutSize * arrayInSize` and an output vector of
length at least `arrayOutSize`, `compute(arrayID)` returns, and afterwards
out[row] = sum over col < arrayInSize of M[row*arrayInSize + col] * v[col], reduced to 64
bits, for every row < arrayOutSize, whatever out held before; the outputs from
`arrayOutSize` on, M, v and the sizes are unchanged. -/
theorem compute_is_mvm (a : ManualMVMComputeArray) (arrayID : Nat)
    (outVec inVec matrix : List Int)
    (hout : a.outVecs[arrayID]? = some outVec) (hinv : a.inVecs[arrayID]? = some inVec)
    (hmat : a.matrices[arrayID]? = some matrix)
    (hno : (a.arrayOutSize : Int) ≤ INT_MAX) (hni : (a.arrayInSize : Int) ≤ INT_MAX)
    (hlin : a.arrayInSize ≤ inVec.length)
    (hlmat : a.arrayOutSize * a.arrayInSize ≤ matrix.length)
    (hlout : a.arrayOutSize ≤ outVec.length) :
    ∃ a2 out2, a.compute arrayID = some a2 ∧
      a2.outVecs = a.outVecs.set arrayID out2 ∧
      a2.inVecs = a.inVecs ∧ a2.matrices = a.matrices ∧
      a2.arrayInSize = a.arrayInSize ∧ a2.arrayOutSize = a.arrayOutSize ∧
      out2.length = outVec.length ∧
      (∀ row, row < a.arrayOutSize →
        out2[row]? = some (wrap64 (mvm_row matrix inVec a.arrayInSize row))) ∧
      (∀ j, a.arrayOutSize ≤ j → out2[j]? = outVec[j]?) := by
  obtain ⟨cleared, hc, hcl, hcz, hcr⟩ := clear_loop a.arrayOutSize outVec hno hlout
  obtain ⟨out2, hr, hrl, hrd, hrr⟩ := rows_loop matrix inVec a.arrayInSize a.arrayOutSize
    cleared hno hni hlin hlmat (by omega) hcz
  refine ⟨{ a with outVecs := a.outVecs.set arrayID out2 }, out2, ?_, rfl, rfl, rfl, rfl, rfl,
    by omega, hrd, fun j hj => ?_⟩
  · unfold ManualMVMComputeArray.compute
    simp only [hout, hinv, hmat, hc, hr]
  · rw [hrr j hj]
    exact hcr j hj

/-- C16, amended, at a concrete input: a 2 x 2 matrix. -/
theorem compute_is_mvm_witness :
    ∃ a2 out2,
      ManualMVMComputeArray.compute ⟨2, 2, [[1, 2]], [[7, 7, 7]], [[1, 2, 3, 4]]⟩ 0 = some a2 ∧
      a2.outVecs = [out2] ∧ out2[0]? = some 5 ∧ out2[1]? = some 11 ∧ out2[2]? = some 7 := by
  obtain ⟨a2, out2, h1, h2, _, _, _, _, _, h3, h4⟩ :=
    compute_is_mvm ⟨2, 2, [[1, 2]], [[7, 7, 7]], [[1, 2, 3, 4]]⟩ 0 [7, 7, 7] [1, 2]
      [1, 2, 3, 4] rfl rfl rfl (by decide) (by decide) (by decide) (by decide) (by decide)
  refine ⟨a2, out2, h1, h2, ?_, ?_, ?_⟩
  · rw [h3 0 (by decide)]; decide
  · rw [h3 1 (by decide)]; decide
  · rw [h4 2 (by decide)]; rfl

/-- C16, sizes beyond the `int` loop counters. With `arrayOutSize` = 2147483649 (and an
output vector of that length, `arrayInSize` = 0) the counter of the loop of line 142
overflows; with `arrayInSize` = 2147483649 (and an input vector and a matrix of that
length, `arrayOutSize` = 1) the counter of the loop of line 148 overflows. -/
theorem compute_counter_overflow :
    ((List.replicate 2147483649 (1 : Int)).length = 2147483649 ∧
      ManualMVMComputeArray.compute
        ⟨0, 2147483649, [[]], [List.replicate 2147483649 1], [[]]⟩ 0 = none) ∧
    ManualMVMComputeArray.compute
      ⟨2147483649, 1, [List.replicate 2147483649 1], [[5]],
        [List.replicate 2147483649 1]⟩ 0 = none := by
  refine ⟨⟨List.length_replicate _ _, ?_⟩, ?_⟩
  · rfl
  · rfl

/-! ## Properties of the event handler -/

/-- In WAIT an EXCHANGE message of a neighbour that is not the fourth is counted and the
state stays WAIT. -/
theorem wait_step (m : PatternMachine) (s len : Int) (hs : m.comp.state = state_t.WAIT)
    (hmem : s ∈ [m.comp.left, m.comp.right, m.comp.up, m.comp.down])
    (hk : m.comp.rcv_cnt + 1 < 4) :
    Ghost_pattern.handle_events m (Delivery.message ⟨s, pattern_event_t.EXCHANGE, len⟩)
      = .ok ({ m with comp := { m.comp with rcv_cnt := m.comp.rcv_cnt + 1 } }, []) := by
  unfold Ghost_pattern.handle_events
  rw [hs]
  simp only [not_not.mpr hmem, if_false, if_neg (show ¬ 4 < m.comp.rcv_cnt + 1 by omega),
    if_neg (show ¬ m.comp.rcv_cnt + 1 = 4 by omega)]

/-- In WAIT the fourth EXCHANGE message of a neighbour ends the WAIT phase: the state
becomes COMPUTE, or DONE when the round limit has been reached. -/
theorem wait_step_fourth (m : PatternMachine) (s len : Int)
    (hs : m.comp.state = state_t.WAIT)
    (hmem : s ∈ [m.comp.left, m.comp.right, m.comp.up, m.comp.down])
    (hk : m.comp.rcv_cnt + 1 = 4) :
    ∃ m2 out, Ghost_pattern.handle_events m
        (Delivery.message ⟨s, pattern_event_t.EXCHANGE, len⟩) = .ok (m2, out) ∧
      m2.comp.rcv_cnt = 4 ∧
      m2.comp.state = (if m.limit_not_reached then state_t.COMPUTE else state_t.DONE) := by
  unfold Ghost_pattern.handle_events
  rw [hs]
  simp only [not_not.mpr hmem, if_false, if_neg (show ¬ 4 < m.comp.rcv_cnt + 1 by omega),
    if_pos hk]
  by_cases hl : m.limit_not_reached = true
  · simp only [hl, if_true]
    exact ⟨_, _, rfl, hk, rfl⟩
  · simp only [hl, if_false]
    exact ⟨_, _, rfl, hk, rfl⟩

/-- Running a sequence whose first delivery is accepted. -/
theorem run_cons_ok (d : Delivery) (ds : List Delivery) (m m2 m3 : PatternMachine)
    (out out2 : List Request) (h1 : Ghost_pattern.handle_events m d = .ok (m2, out))
    (h2 : Ghost_pattern.run ds m2 = .ok (m3, out2)) :
    Ghost_pattern.run (d :: ds) m = .ok (m3, out ++ out2) := by
  simp only [Ghost_pattern.run, h1, h2]

/-- C11: in the handler, a component in state WAIT with receive count 0 that receives the
EXCHANGE messages of its four neighbours in any order stays in WAIT after the first,
second and third arrival, with receive count 1, 2 and 3, and changes on the fourth, to
COMPUTE, or to DONE when the round limit has been reached; a handler call in WAIT leaves
WAIT exactly when it brings the receive count to 4; and every handler call that enters
WAIT sets the receive count to 0. -/
theorem wait_leaves_on_fourth_arrival (m : PatternMachine) (len : Int) :
    (m.comp.state = state_t.WAIT → m.comp.rcv_cnt = 0 →
      ∀ order : List Int,
        order.Perm [m.comp.left, m.comp.right, m.comp.up, m.comp.down] →
        (∀ k : Nat, k < 4 → ∃ mk out,
          Ghost_pattern.run (exchanges (order.take k) len) m = .ok (mk, out) ∧
          mk.comp.state = state_t.WAIT ∧ mk.comp.rcv_cnt = k) ∧
        ∃ m4 out, Ghost_pattern.run (exchanges order len) m = .ok (m4, out) ∧
          m4.comp.rcv_cnt = 4 ∧
          m4.comp.state
            = (if m.limit_not_reached then state_t.COMPUTE else state_t.DONE)) ∧
    (∀ d m2 out, m.comp.state = state_t.WAIT →
      Ghost_pattern.handle_events m d = .ok (m2, out) →
      (m2.comp.state ≠ state_t.WAIT ↔ m2.comp.rcv_cnt = 4)) ∧
    (∀ d m2 out, m.comp.state ≠ state_t.WAIT →
      Ghost_pattern.handle_events m d = .ok (m2, out) →
      m2.comp.state = state_t.WAIT → m2.comp.rcv_cnt = 0) := by
  refine ⟨fun hs h0 order hperm => ?_, fun d m2 out hs h => ?_, fun d m2 out hs h hw => ?_⟩
  · have hlen : order.length = 4 := hperm.length_eq
    match order, hlen, hperm with
    | [a, b, c, e], _, hperm =>
      have ha : a ∈ [m.comp.left, m.comp.right, m.comp.up, m.comp.down] :=
        hperm.mem_iff.mp (by simp)
      have hb : b ∈ [m.comp.left, m.comp.right, m.comp.up, m.comp.down] :=
        hperm.mem_iff.mp (by simp)
      have hc : c ∈ [m.comp.left, m.comp.right, m.comp.up, m.comp.down] :=
        hperm.mem_iff.mp (by simp)
      have he : e ∈ [m.comp.left, m.comp.right, m.comp.up, m.comp.down] :=
        hperm.mem_iff.mp (by simp)
      have s1 := wait_step m a len hs ha (by omega)
      have s2 := wait_step { m with comp := { m.comp with rcv_cnt := m.comp.rcv_cnt + 1 } }
        b len hs hb (by simp only; omega)
      have s3 := wait_step
        { m with comp := { m.comp with rcv_cnt := m.comp.rcv_cnt + 1 + 1 } }
        c len hs hc (by simp only; omega)
      obtain ⟨m4, out4, s4, hr4, hst4⟩ := wait_step_fourth
        { m with comp := { m.comp with rcv_cnt := m.comp.rcv_cnt + 1 + 1 + 1 } }
        e len hs he (by simp only; omega)
      have r1 := run_cons_ok _ [] _ _ _ _ _ s1 rfl
      have r2 := run_cons_ok _ _ _ _ _ _ _ s1 (run_cons_ok _ [] _ _ _ _ _ s2 rfl)
      have r3 := run_cons_ok _ _ _ _ _ _ _ s1
        (run_cons_ok _ _ _ _ _ _ _ s2 (run_cons_ok _ [] _ _ _ _ _ s3 rfl))
      have r4 := run_cons_ok _ _ _ _ _ _ _ s1
        (run_cons_ok _ _ _ _ _ _ _ s2
          (run_cons_ok _ _ _ _ _ _ _ s3 (run_cons_ok _ [] _ _ _ _ _ s4 rfl)))
      refine ⟨fun k hk => ?_, m4, _, r4, hr4, hst4⟩
      interval_cases k
      · exact ⟨m, [], rfl, hs, h0⟩
      · exact ⟨_, _, r1, hs, by simp only; omega⟩
      · exact ⟨_, _, r2, hs, by simp only; omega⟩
      · exact ⟨_, _, r3, hs, by simp only; omega⟩
  · unfold Ghost_pattern.handle_events at h
    rw [hs] at h
    cases d with
    | compute_timer => simp at h
    | message msg =>
      obtain ⟨sender, kind, mlen⟩ := msg
      cases kind with
      | START => simp at h
      | EXCHANGE =>
        simp only at h
        split_ifs at h with h1 h2 h3 h4
        · simp only [Except.ok.injEq, Prod.mk.injEq] at h
          rw [← h.1]
          simp [h3]
        · simp only [Except.ok.injEq, Prod.mk.injEq] at h
          rw [← h.1]
          simp [h3]
        · simp only [Except.ok.injEq, Prod.mk.injEq] at h
          rw [← h.1]
          simp [hs, h3]
  · unfold Ghost_pattern.handle_events at h
    cases hst : m.comp.state with
    | WAIT => exact absurd hst hs
    | INIT =>
      rw [hst] at h
      cases d with
      | compute_timer => simp at h
      | message msg =>
        obtain ⟨sender, kind, mlen⟩ := msg
        cases kind with
        | EXCHANGE => simp at h
        | START =>
          simp only [Except.ok.injEq, Prod.mk.injEq] at h
          rw [← h.1] at hw
          simp at hw
    | COMPUTE =>
      rw [hst] at h
      cases d with
      | message msg => simp at h
      | compute_timer =>
        simp only [Except.ok.injEq, Prod.mk.injEq] at h
        rw [← h.1]
    | DONE =>
      rw [hst] at h
      cases d with
      | compute_timer => simp at h
      | message msg =>
        simp only [Except.ok.injEq, Prod.mk.injEq] at h
        rw [← h.1, hst] at hw
        simp at hw

/-- C11 at a concrete input: the messages arrive from down, left, right and up (ranks 9,
4, 6 and 1) at rank 5 of the 4 x 4 torus. -/
theorem wait_leaves_on_fourth_arrival_witness :
    ∃ m4 out, Ghost_pattern.run (exchanges [9, 4, 6, 1] 128) PatternMachine.sample
        = .ok (m4, out) ∧
      m4.comp.rcv_cnt = 4 ∧ m4.comp.state = state_t.COMPUTE :=
  ((wait_leaves_on_fourth_arrival PatternMachine.sample 128).1 rfl rfl [9, 4, 6, 1]
    (by decide)).2
